import Mathlib

/-!
Verification of the codex-equilibrium account-pool proxy.

This file gives a shallow embedding, in Lean 4, of the core functions of the
repository (TypeScript) and proves the specified properties about them.

Modelling conventions, used throughout:
* Timestamps are integers (milliseconds since epoch), as produced by
  `Date.now()`.  The source stores timestamps as ISO strings via
  `new Date(ms).toISOString()` and reads them back with `Date.parse`; this
  round trip is the identity on the instant, so `Option Int` models an
  optional timestamp field directly.
* A JS field that may be `undefined` is modelled as an `Option`.
* `Set<string>` (the in-flight refresh set) is modelled as a `List String`
  with membership as the set predicate; `add`/`delete` are cons/erase.
* Asynchronous functions of the source are pure here: every external input
  (current time, upstream fetch result, stored file contents) is an explicit
  argument, and every externally visible effect (record persisted through the
  store, cursor write, whether a network call was issued) is an explicit
  component of the returned outcome structure.
-/

/-- Account record, from `src/types.ts` / `src/storage.ts` (`TokenRecord`).
Optional JS fields are `Option`s; timestamp strings are integer instants. -/
structure TokenRecord where
  id : String
  type : Option String := none
  access_token : Option String := none
  refresh_token : Option String := none
  id_token : Option String := none
  account_id : Option String := none
  email : Option String := none
  name : Option String := none
  base_url : Option String := none
  api_key : Option String := none
  expire : Option Int := none
  created_at : Option Int := none
  last_refresh : Option Int := none
  last_used : Option Int := none
  disabled : Bool := false
  cooldown_until : Option Int := none
  fail_count : Option Nat := none
  last_error_code : Option Int := none
  deriving DecidableEq, Repr, Inhabited

/-- From `utils.ts` `isCoolingDown`: the record is cooling down when
`cooldown_until` is present and strictly in the future. -/
def isCoolingDown (rec : TokenRecord) (now : Int) : Bool :=
  match rec.cooldown_until with
  | none => false
  | some t => now < t

/-- From `utils.ts` `isExpired`: expired when `expire` is present and ≤ now. -/
def isExpired (rec : TokenRecord) (now : Int) : Bool :=
  match rec.expire with
  | none => false
  | some t => t ≤ now

/-- From `utils.ts` `isNearExpiry` (default threshold 10 minutes):
true when `expire` is absent or within `thresholdMs` of now. -/
def isNearExpiry (rec : TokenRecord) (now : Int) (thresholdMs : Int) : Bool :=
  match rec.expire with
  | none => true
  | some t => t - now ≤ thresholdMs

/-- From `utils.ts` `parseExpireSeconds`: `Number(expires_in)` must be a
finite positive number, else undefined; otherwise now + n·1000.  The
argument models the already-converted number (`none` = absent or NaN). -/
def parseExpireSeconds (expires_in : Option Int) (now : Int) : Option Int :=
  match expires_in with
  | none => none
  | some n => if n ≤ 0 then none else some (now + n * 1000)

/-- Usability predicate used by both selector operations in `selection.ts`:
`!t.disabled && !isCoolingDown(t) && !isExpired(t)`. -/
def usableTok (now : Int) (t : TokenRecord) : Bool :=
  !t.disabled && !isCoolingDown t now && !isExpired t now

/-! ### Cursor file parsing (`storage.ts` `readRR`) -/

/-- JS whitespace characters skipped by `parseInt` (the common ones). -/
def isJsSpace (c : Char) : Bool :=
  c = ' ' || c = '\t' || c = '\n' || c = '\r'

/-- Decimal digit test. -/
def isDigitChar (c : Char) : Bool :=
  '0' ≤ c && c ≤ '9'

/-- Numeric value of a list of decimal digit characters. -/
def digitsToNat (ds : List Char) : Nat :=
  ds.foldl (fun acc c => acc * 10 + (c.toNat - 48)) 0

/-- Model of JS `parseInt(s, 10)`: skip leading whitespace, read an optional
sign, then the maximal run of decimal digits; `none` models NaN (no digits). -/
def parseIntDec (s : String) : Option Int :=
  let cs := s.data.dropWhile isJsSpace
  match cs with
  | '-' :: t =>
      let ds := t.takeWhile isDigitChar
      if ds.isEmpty then none else some (-(digitsToNat ds : Int))
  | '+' :: t =>
      let ds := t.takeWhile isDigitChar
      if ds.isEmpty then none else some ((digitsToNat ds : Int))
  | t =>
      let ds := t.takeWhile isDigitChar
      if ds.isEmpty then none else some ((digitsToNat ds : Int))

/-- From `storage.ts` `readRR`: `parseInt(fileContent, 10) || 0`, and 0 when
the file is missing (the catch branch).  `file = none` models a missing or
unreadable file.  The `|| 0` coalesces NaN (and ±0) to 0. -/
def readRR (file : Option String) : Int :=
  match file with
  | none => 0
  | some s =>
      match parseIntDec s with
      | none => 0
      | some v => if v = 0 then 0 else v

/-! ### Selection (`selection.ts`) -/

/-- Outcome of a selector operation: the returned record (with its
`last_used` already stamped, as the source persists it), the reported index
and total, and the cursor value written by `writeRR` (if any). -/
structure SelectOutcome where
  record : Option TokenRecord
  index : Nat
  total : Nat
  rrWrite : Option Nat
  deriving DecidableEq, Repr

/-- Cursor normalisation shared by `selectNextToken` and
`advanceToNextUsableToken`: `if (!Number.isFinite(start) || start < 0 ||
start >= total) start = 0`.  `readRR` always returns a finite integer, so
only the range checks are live. -/
def normCursor (total : Nat) (raw : Int) : Nat :=
  if 0 ≤ raw ∧ raw < (total : Int) then raw.toNat else 0

/-- Scan of `selectNextToken`: the source first tests the entry at `start`
(offset 0) and then offsets 1 … total−1; equivalently, the first offset
`i < total` whose entry at `(start + i) % total` is usable. -/
def selectScan (tokens : List TokenRecord) (start : Nat) (now : Int) : Option Nat :=
  (List.range tokens.length).find?
    (fun i => usableTok now (tokens.getD ((start + i) % tokens.length) default))

/-- From `selection.ts` `selectNextToken` (sticky selection).  `rawStart` is
the value read from the cursor file.  Offset 0 (the current cursor) returns
without a cursor write; any later offset moves the cursor to the found
index. -/
def selectNextToken (tokens : List TokenRecord) (rawStart : Int) (now : Int) :
    SelectOutcome :=
  let total := tokens.length
  if total = 0 then ⟨none, 0, total, none⟩
  else
    let start := normCursor total rawStart
    match selectScan tokens start now with
    | some i =>
        let idx := (start + i) % total
        let t := tokens.getD idx default
        let upd := { t with last_used := some now }
        if i = 0 then ⟨some upd, idx, total, none⟩
        else ⟨some upd, idx, total, some idx⟩
    | none => ⟨none, start % total, total, none⟩

/-- Scan of `advanceToNextUsableToken`: source offsets 1 … total; here
offset j models source offset j+1. -/
def advanceScan (tokens : List TokenRecord) (start : Nat) (now : Int) : Option Nat :=
  (List.range tokens.length).find?
    (fun j => usableTok now (tokens.getD ((start + j + 1) % tokens.length) default))

/-- From `selection.ts` `advanceToNextUsableToken`: always scans starting
past the current cursor, writing the cursor at the found index. -/
def advanceToNextUsableToken (tokens : List TokenRecord) (rawStart : Int)
    (now : Int) : SelectOutcome :=
  let total := tokens.length
  if total = 0 then ⟨none, 0, total, none⟩
  else
    let start := normCursor total rawStart
    match advanceScan tokens start now with
    | some j =>
        let idx := (start + j + 1) % total
        let t := tokens.getD idx default
        let upd := { t with last_used := some now }
        ⟨some upd, idx, total, some idx⟩
    | none => ⟨none, start % total, total, none⟩

/-! ### Request-time failure policy (`refresh.ts` `computeCooldownMs`,
`markFailure`) -/

/-- The retriable status codes of the request path. -/
def requestRetriableCodes : List Int := [429, 401, 403, 408, 500, 502, 503, 504]

/-- From `refresh.ts` `computeCooldownMs`: a uniform 3-hour cooldown on any
retriable code, else 0. -/
def computeCooldownMs (code : Int) (_failCount : Nat) : Int :=
  if code = 429 ∨ code = 401 ∨ code = 403 ∨ code = 408 ∨ code = 500 ∨
      code = 502 ∨ code = 503 ∨ code = 504 then
    3 * 60 * 60 * 1000
  else 0

/-- From `refresh.ts` `markFailure`: increments `fail_count`, records the
status code, and applies the request-time cooldown policy (leaving
`cooldown_until` unchanged when the policy yields 0). -/
def markFailure (rec : TokenRecord) (code : Int) (now : Int) : TokenRecord :=
  let fc := rec.fail_count.getD 0 + 1
  let cooldownMs := computeCooldownMs code fc
  { rec with
    fail_count := some fc
    last_error_code := some code
    cooldown_until :=
      if cooldownMs > 0 then some (now + cooldownMs) else rec.cooldown_until }

/-! ### Token refresh (`refresh.ts` `refreshToken`) -/

/-- Body fields of the upstream token-endpoint JSON reply. -/
structure TokenResponse where
  access_token : Option String := none
  refresh_token : Option String := none
  id_token : Option String := none
  expires_in : Option Int := none
  deriving DecidableEq, Repr

/-- Fields extracted by `decodeJwtPayload` from the id_token payload
(`email` and the chatgpt account id). -/
structure JwtMeta where
  email : Option String := none
  account_id : Option String := none
  deriving DecidableEq, Repr

/-- Upstream reply of the refresh `fetch`: HTTP status plus the parsed JSON
body (the body is only consulted on 2xx). -/
structure FetchReply where
  status : Int
  body : TokenResponse := {}
  deriving DecidableEq, Repr

/-- JS `Response.ok`: status in the 2xx range. -/
def respOk (status : Int) : Bool :=
  200 ≤ status && status < 300

/-- Outcome of one `refreshToken` call: the returned record (`none` models
`undefined`), the records persisted via `updateRecord` in order, the
in-flight set after the call, and whether the upstream call was issued. -/
structure RefreshOutcome where
  result : Option TokenRecord
  updates : List TokenRecord
  refreshingAfter : List String
  fetched : Bool
  deriving DecidableEq, Repr

/-- Refresh-path cooldown (the failure branch of `refreshToken`):
30 min on 429, 10 min on 401/403, `min(30 min, 2^min(fc,5)·60 s)` on
408/5xx, else 0.  `failCount` is the already-incremented count; the source
guards it with `|| 1`. -/
def refreshCooldownMs (code : Int) (failCount : Nat) : Int :=
  if code = 429 then 30 * 60 * 1000
  else if code = 401 ∨ code = 403 then 10 * 60 * 1000
  else if code = 408 ∨ code = 500 ∨ code = 502 ∨ code = 503 ∨ code = 504 then
    let fc := if failCount = 0 then 1 else failCount
    min (30 * 60 * 1000) ((2 ^ min fc 5 : Int) * 60 * 1000)
  else 0

/-- From `refresh.ts` `refreshToken`.  Early returns: no `refresh_token`, or
the id is already in the in-flight set (`refreshing`) — in both cases
`undefined` with no fetch and no store write.  Otherwise the id is added to
the set, the upstream call is made (`reply`), and the id is removed again in
the `finally` clause.  `meta` stands for `decodeJwtPayload(id_token)` applied
to the reply's id_token. -/
def refreshToken (refreshing : List String) (rec : TokenRecord)
    (reply : FetchReply) (meta : JwtMeta) (now : Int) : RefreshOutcome :=
  if rec.refresh_token = none then ⟨none, [], refreshing, false⟩
  else if rec.id ∈ refreshing then ⟨none, [], refreshing, false⟩
  else
    -- main path: `refreshing.add(rec.id)` … `finally { refreshing.delete(rec.id) }`
    let refreshingAfter := (rec.id :: refreshing).erase rec.id
    if !respOk reply.status then
      let code := reply.status
      let failCount := rec.fail_count.getD 0 + 1
      let cooldownMs := refreshCooldownMs code failCount
      let updatedFail :=
        { rec with
          last_error_code := some code
          fail_count := some failCount
          cooldown_until :=
            if cooldownMs > 0 then some (now + cooldownMs)
            else rec.cooldown_until }
      ⟨none, [updatedFail], refreshingAfter, true⟩
    else
      let tr := reply.body
      let updated :=
        { rec with
          access_token := tr.access_token.or rec.access_token
          refresh_token := tr.refresh_token.or rec.refresh_token
          id_token := tr.id_token.or rec.id_token
          account_id := meta.account_id.or rec.account_id
          email := meta.email.or rec.email
          expire := (parseExpireSeconds tr.expires_in now).or rec.expire
          last_refresh := some now
          fail_count := some 0
          last_error_code := none
          cooldown_until := none }
      ⟨some updated, [updated], refreshingAfter, true⟩

/-- Relay record as created by `POST /accounts/relay`
(`routes/accounts.ts`): carries only relay fields — in particular no
`refresh_token`. -/
def relayRecord (id name base_url api_key : String) (now : Int) : TokenRecord :=
  { id := id
    type := some "relay"
    name := some name
    base_url := some base_url
    api_key := some api_key
    created_at := some now
    disabled := false
    fail_count := some 0 }

/-! ### Tool-name shortening (`converters.ts` `shortenNameIfNeeded`,
`buildShortNameMap`, `buildReverseMapFromOpenAI`) -/

/-- JS strings of the tool-name machinery, modelled as lists of characters
(JS UTF-16 length and Lean character count agree on these names). -/
abbrev JStr := List Char

/-- Decimal digit characters of a natural number, i.e. JS `'' + i`. -/
def natChars (i : Nat) : JStr :=
  ((Nat.digits 10 i).reverse).map (fun d => Char.ofNat (48 + d))

/-- JS `n.lastIndexOf('__')`: the largest index where `__` occurs, -1 when
absent. -/
def lastIndexOfUU (n : JStr) : Int :=
  match ((List.range n.length).filter
      (fun k => (n.drop k).take 2 == ['_', '_'])).getLast? with
  | some k => (k : Int)
  | none => -1

/-- From `converters.ts` `shortenNameIfNeeded` (the same body appears
verbatim as the `baseCandidate` closure inside `buildShortNameMap`):
identity for names of at most 64 characters; an `mcp__`-prefixed name keeps
`mcp__` plus the part after its last `__`, truncated to 64 if needed;
otherwise plain truncation to 64. -/
def shortenNameIfNeeded (n : JStr) : JStr :=
  let limit := 64
  if n.length ≤ limit then n
  else if n.take 5 = "mcp__".data ∧ lastIndexOfUU n > 0 then
    let idx := (lastIndexOfUU n).toNat
    let cand := "mcp__".data ++ n.drop (idx + 2)
    if cand.length > limit then cand.take limit else cand
  else n.take limit

/-- Candidate built by the collision loop of `makeUnique` for suffix `~i`:
the stem is trimmed to `max 0 (64 - |suffix|)` (Nat subtraction) before the
suffix is appended. -/
def mkCand (base : JStr) (i : Nat) : JStr :=
  let suffix := '~' :: natChars i
  base.take (64 - suffix.length) ++ suffix

/-- The collision loop of `makeUnique` (`for (let i = 1; ; i++)`), with
explicit fuel.  `makeUniqueFuel` below always suffices — a free candidate is
proved to exist within it — so this equals the unbounded JS loop. -/
def makeUniqueGo (used : List JStr) (base : JStr) : Nat → Nat → JStr
  | 0, i => mkCand base i
  | fuel + 1, i =>
      let tmp := mkCand base i
      if tmp ∈ used then makeUniqueGo used base fuel (i + 1) else tmp

/-- Fuel bound for the collision loop: past `10 ^ digits(|used|)` there are
more than `|used|` pairwise distinct candidates of equal digit length. -/
def makeUniqueFuel (used : List JStr) : Nat :=
  10 ^ (Nat.digits 10 used.length).length + used.length + 1

/-- The `makeUnique` closure of `buildShortNameMap`: the candidate itself
when unused, else the first unused `~i` variant. -/
def makeUnique (used : List JStr) (cand : JStr) : JStr :=
  if cand ∈ used then makeUniqueGo used cand (makeUniqueFuel used) 1 else cand

/-- JS object used as a string-keyed map; later writes shadow earlier ones
(lookup takes the most recent binding). -/
def setRecord (m : List (JStr × JStr)) (k v : JStr) : List (JStr × JStr) :=
  (k, v) :: m

/-- Lookup in the map model: the most recent binding of the key. -/
def getRecord (m : List (JStr × JStr)) (k : JStr) : Option JStr :=
  (m.find? (fun p => p.1 == k)).map (fun p => p.2)

/-- Main loop of `buildShortNameMap` over the names, threading the `used`
set and the `map` object (`used[uniq] = true; map[n] = uniq`). -/
def buildShortNameMapGo (used : List JStr) (map : List (JStr × JStr)) :
    List JStr → List (JStr × JStr)
  | [] => map
  | n :: rest =>
      let cand := shortenNameIfNeeded n
      let uniq := makeUnique used cand
      buildShortNameMapGo (uniq :: used) (setRecord map n uniq) rest

/-- From `converters.ts` `buildShortNameMap`. -/
def buildShortNameMap (names : List JStr) : List (JStr × JStr) :=
  buildShortNameMapGo [] [] names

/-- From `converters.ts` `buildReverseMapFromOpenAI`: for each function
tool name, `map[shortenNameIfNeeded(name)] = name`. -/
def buildReverseMap (names : List JStr) : List (JStr × JStr) :=
  names.foldl (fun m n => setRecord m (shortenNameIfNeeded n) n) []

/-! ### JSON value model for the translator (`converters.ts`,
`part_000` single-file server) -/

/-- JS values as manipulated by the converters.  `undefined` is represented
by `Option.none` at access sites (a field lookup yields `Option Json`);
object fields hold defined values.  Numbers are integers — the converters
only ever produce or test integral numbers (indices, timestamps). -/
inductive Json where
  | null : Json
  | bool : Bool → Json
  | num : Int → Json
  | str : String → Json
  | arr : List Json → Json
  | obj : List (String × Json) → Json

/-- Property access `v?.k`: a field of an object, `undefined` otherwise. -/
def Json.getField : Json → String → Option Json
  | .obj fields, k => (fields.find? (fun p => p.1 == k)).map (fun p => p.2)
  | _, _ => none

/-- JS truthiness of a defined value. -/
def Json.truthy : Json → Bool
  | .null => false
  | .bool b => b
  | .num n => n != 0
  | .str s => s != ""
  | .arr _ => true
  | .obj _ => true

/-- JS truthiness of a possibly-undefined value. -/
def jsTruthy : Option Json → Bool
  | none => false
  | some v => v.truthy

/-- JS `a ?? b` on a field access: `null`/`undefined` fall through. -/
def jsCoalesce (a : Option Json) (b : Json) : Json :=
  match a with
  | none => b
  | some .null => b
  | some v => v

/-- JS `a || b` on a field access. -/
def jsOr (a : Option Json) (b : Json) : Json :=
  match a with
  | some v => if v.truthy then v else b
  | none => b

/-- Lookup in an object field list (property read on `Json.obj`). -/
def getKey (m : List (String × Json)) (k : String) : Option Json :=
  (m.find? (fun p => p.1 == k)).map (fun p => p.2)

/-- JS object assignment `o[k] = v`: updates an existing key in place,
appends a new key (JS preserves first-insertion key order; a JS object
never holds duplicate keys). -/
def setKey : List (String × Json) → String → Json → List (String × Json)
  | [], k, v => [(k, v)]
  | (k1, v1) :: rest, k, v =>
      if k1 = k then (k, v) :: rest else (k1, v1) :: setKey rest k v

/-- Optional object field: present exactly when the value is defined
(mirrors `if (x !== undefined) o.k = x`, and object literals whose
`undefined` entries `JSON.stringify` drops). -/
def optField (k : String) (v : Option Json) : List (String × Json) :=
  match v with
  | some x => [(k, x)]
  | none => []

mutual
/-- `JSON.stringify` (string escaping elided: the claims never inspect the
serialised text). -/
def Json.stringify : Json → String
  | .null => "null"
  | .bool b => if b then "true" else "false"
  | .num n => toString n
  | .str s => "\"" ++ s ++ "\""
  | .arr l => "[" ++ stringifyItems l ++ "]"
  | .obj fs => "\x7b" ++ stringifyFields fs ++ "\x7d"

/-- Comma-separated array items. -/
def stringifyItems : List Json → String
  | [] => ""
  | [x] => Json.stringify x
  | x :: xs => Json.stringify x ++ "," ++ stringifyItems xs

/-- Comma-separated object fields. -/
def stringifyFields : List (String × Json) → String
  | [] => ""
  | [(k, v)] => "\"" ++ k ++ "\":" ++ Json.stringify v
  | (k, v) :: xs =>
      "\"" ++ k ++ "\":" ++ Json.stringify v ++ "," ++ stringifyFields xs
end

/-! ### Chat-Completions → Responses conversion
(`part_000` `convertChatCompletionsToResponses`, lines 857–1011) -/

/-- The `mapEffort` table of the model-variant rewrite. -/
def effortOfModel (m : String) : Option String :=
  if m = "gpt-5-minimal" then some "minimal"
  else if m = "gpt-5-low" then some "low"
  else if m = "gpt-5-medium" then some "medium"
  else if m = "gpt-5-high" then some "high"
  else none

/-- Model/effort rewrite: `gpt-5-{minimal,low,medium,high}` becomes
`gpt-5` with the corresponding `reasoning.effort`; anything else is kept
with the incoming effort.  (`mapEffort[model] || reasoningEffort` never
falls back: the table is total on the four variants.) -/
def modelEffort (model0 eff0 : Json) : Json × Json :=
  match model0 with
  | .str s =>
      match effortOfModel s with
      | some e => (.str "gpt-5", .str e)
      | none => (model0, eff0)
  | _ => (model0, eff0)

/-- `rf && typeof rf === 'object'`: a defined, truthy value of object type
(arrays included; `null` is of object type but falsy). -/
def isObjTruthy : Option Json → Bool
  | some (.obj _) => true
  | some (.arr _) => true
  | _ => false

/-- The `response_format`/`text` section: builds `out.text` and decides the
`store` flag (set exactly in the `response_format` branch). -/
def textSection (payload : Json) (out : List (String × Json)) :
    List (String × Json) × Bool :=
  let rf := payload.getField "response_format"
  let text := payload.getField "text"
  if isObjTruthy rf then
    let rfv := rf.getD .null
    let t0 : List (String × Json) :=
      match jsOr (getKey out "text") (.obj []) with
      | .obj fs => fs
      | _ => []
    let t1 :=
      match rfv.getField "type" with
      | some (.str "text") =>
          setKey t0 "format" (.obj [("type", .str "text")])
      | some (.str "json_schema") =>
          let js := jsOr (rfv.getField "json_schema") (.obj [])
          setKey t0 "format" (.obj ([("type", .str "json_schema")] ++
            optField "name" (js.getField "name") ++
            optField "strict" (js.getField "strict") ++
            optField "schema" (js.getField "schema")))
      | _ => t0
    let t2 :=
      match text with
      | some (.obj _) =>
          match text.getD .null |>.getField "verbosity" with
          | some v => setKey t1 "verbosity" v
          | none => t1
      | _ => t1
    (setKey out "text" (.obj t2), true)
  else
    match text with
    | some (.obj _) =>
        (match text.getD .null |>.getField "verbosity" with
         | some v =>
            let t0 : List (String × Json) :=
              match jsOr (getKey out "text") (.obj []) with
              | .obj fs => fs
              | _ => []
            (setKey out "text" (.obj (setKey t0 "verbosity" v)), false)
         | none => (out, false))
    | _ => (out, false)

/-- A function tool's name, when it is a truthy string
(`t.function?.name`; the converters only ever meet string names). -/
def fnNameOf (t : Json) : Option String :=
  match t.getField "function" with
  | some f =>
      match f.getField "name" with
      | some (.str s) => if s ≠ "" then some s else none
      | _ => none
  | none => none

/-- Is `t?.type === 'function'`. -/
def isFnTool (t : Json) : Bool :=
  match t.getField "type" with
  | some (.str s) => s = "function"
  | _ => false

/-- Shortened name resolution used for tools and assistant tool_calls:
`if (map[name]) name = map[name]; else name = shortenNameIfNeeded(name)`. -/
def shortNameFor (map : List (JStr × JStr)) (name : String) : String :=
  match getRecord map name.data with
  | some v =>
      if v ≠ [] then String.mk v else String.mk (shortenNameIfNeeded name.data)
  | none => String.mk (shortenNameIfNeeded name.data)

/-- One converted tool entry (function tools only). -/
def convTool (map : List (JStr × JStr)) (t : Json) : Option Json :=
  if isFnTool t then
    let fn := jsOr (t.getField "function") (.obj [])
    let name :=
      match fn.getField "name" with
      | some (.str s) => s
      | _ => ""
    some (.obj ([("type", .str "function"),
      ("name", .str (shortNameFor map name))] ++
      optField "description" (fn.getField "description") ++
      optField "parameters" (fn.getField "parameters") ++
      optField "strict" (fn.getField "strict")))
  else none

/-- The tools section: collects function-tool names, builds the shortening
map, and emits `out.tools`; returns the map for later tool_call items. -/
def toolsSection (payload : Json) (out : List (String × Json)) :
    List (String × Json) × List (JStr × JStr) :=
  let tools :=
    match payload.getField "tools" with
    | some (.arr l) => l
    | _ => []
  if tools.length > 0 then
    let names := tools.filterMap (fun t =>
      if isFnTool t then fnNameOf t else none)
    let map :=
      if names.length > 0 then buildShortNameMap (names.map String.data)
      else []
    (setKey out "tools" (.arr (tools.filterMap (convTool map))), map)
  else (out, [])

/-- Is `v?.type === t`. -/
def typeIs (v : Json) (t : String) : Bool :=
  match v.getField "type" with
  | some (.str s) => s = t
  | _ => false

/-- Does this part satisfy `x?.type === 'text' && x?.text` (used both by
the instructions scan and the content conversion). -/
def isTextPart (x : Json) : Bool :=
  (match x.getField "type" with
   | some (.str s) => s = "text"
   | _ => false) && jsTruthy (x.getField "text")

/-- Is `m?.role === r`. -/
def isRole (m : Json) (r : String) : Bool :=
  match m.getField "role" with
  | some (.str s) => s = r
  | _ => false

/-- The instructions scan: first system message with a non-empty string
content, or a text part with truthy text; default otherwise. -/
def extractInstructions : List Json → Json
  | [] => .str "You are a helpful assistant."
  | m :: rest =>
      if isRole m "system" then
        match m.getField "content" with
        | some (.str c) =>
            if c ≠ "" then .str c else extractInstructions rest
        | some (.arr parts) =>
            match parts.find? isTextPart with
            | some t =>
                match t.getField "text" with
                | some tv =>
                    if tv.truthy then tv else extractInstructions rest
                | none => extractInstructions rest
            | none => extractInstructions rest
        | _ => extractInstructions rest
      else extractInstructions rest

/-- One content part of a `message` input item. -/
def convPart (assistant : Bool) (user : Bool) (part : Json) : Option Json :=
  if isTextPart part then
    some (.obj [("type", .str (if assistant then "output_text"
                               else "input_text")),
      ("text", jsCoalesce (part.getField "text") .null)])
  else if typeIs part "image_url" && user then
    match (part.getField "image_url").bind (fun u => u.getField "url") with
    | some u => if u.truthy then some (.obj [("type", .str "input_image"),
        ("image_url", u)]) else none
    | none => none
  else none

/-- One assistant `tool_calls` entry converted to a `function_call` input
item. -/
def convToolCall (map : List (JStr × JStr)) (tc : Json) : Option Json :=
  if typeIs tc "function" then
    let name :=
      match (tc.getField "function").bind (fun f => f.getField "name") with
      | some (.str s) => s
      | _ => ""
    some (.obj [("type", .str "function_call"),
      ("call_id", jsOr (tc.getField "id") (.str "")),
      ("name", .str (shortNameFor map name)),
      ("arguments", jsOr ((tc.getField "function").bind
        (fun f => f.getField "arguments")) (.str ""))])
  else none

/-- Input items contributed by one chat message, in order: a tool message
becomes a `function_call_output`; any other role becomes a `message` item
(system demoted to user) followed by `function_call` items for assistant
`tool_calls`. -/
def convMessage (map : List (JStr × JStr)) (m : Json) : List Json :=
  if isRole m "tool" then
    [Json.obj [("type", .str "function_call_output"),
      ("call_id", jsCoalesce (m.getField "tool_call_id") (.str "")),
      ("output",
        match m.getField "content" with
        | some (.str s) => .str s
        | c => .str (Json.stringify (jsCoalesce c (.str ""))))]]
  else
    let roleVal : Option Json :=
      match m.getField "role" with
      | some (.str "system") => some (.str "user")
      | r => r
    let assistant := isRole m "assistant"
    let user := isRole m "user"
    let parts : List Json :=
      match m.getField "content" with
      | some (.str c) =>
          [Json.obj [("type", .str (if assistant then "output_text"
                                    else "input_text")),
            ("text", .str c)]]
      | some (.arr cparts) => cparts.filterMap (convPart assistant user)
      | _ => []
    let msgItem := Json.obj ([("type", .str "message")] ++
      optField "role" roleVal ++ [("content", .arr parts)])
    let tcs : List Json :=
      if assistant then
        match m.getField "tool_calls" with
        | some (.arr l) => l.filterMap (convToolCall map)
        | _ => []
      else []
    msgItem :: tcs

/-- The `messages` array of the payload (`Array.isArray` guard). -/
def msgsOf (payload : Json) : List Json :=
  match payload.getField "messages" with
  | some (.arr l) => l
  | _ => []

/-- The unconditional head of the output object built by
`convertChatCompletionsToResponses`: `stream`, model/effort rewrite,
`reasoning` (re-assigned with `summary` spread in), `parallel_tool_calls`
and `include`. -/
def baseFields (payload : Json) : List (String × Json) :=
  let stream := jsTruthy (payload.getField "stream")
  let out0 := setKey [] "stream" (.bool stream)
  let me := modelEffort (jsCoalesce (payload.getField "model") (.str "gpt-5"))
    (jsCoalesce (payload.getField "reasoning_effort") (.str "low"))
  let out1 := setKey out0 "model" me.1
  let out2 := setKey out1 "reasoning" (.obj [("effort", me.2)])
  let out3 := setKey out2 "parallel_tool_calls" (.bool true)
  let out4 := setKey out3 "reasoning"
    (match jsOr (getKey out3 "reasoning") (.obj []) with
     | .obj fs => .obj (setKey fs "summary" (.str "auto"))
     | _ => .obj [("summary", .str "auto")])
  setKey out4 "include" (.arr [.str "reasoning.encrypted_content"])

/-- From `part_000` `convertChatCompletionsToResponses` (the full variant
of the converter, carrying the ordered `input` array and the `store`
flag). -/
def convertChatCompletionsToResponses (payload : Json) : Json :=
  let ts := textSection payload (baseFields payload)
  let tl := toolsSection payload ts.1
  let out6 := setKey tl.1 "instructions" (extractInstructions (msgsOf payload))
  let out7 := setKey out6 "input"
    (.arr ((msgsOf payload).flatMap (convMessage tl.2)))
  let out8 := setKey out7 "store" (.bool ts.2)
  .obj out8

/-- Output fields after the text and tools sections. -/
def midFields (payload : Json) : List (String × Json) :=
  (toolsSection payload (textSection payload (baseFields payload)).1).1

/-- The tool-shortening map in effect for this payload. -/
def toolMapOf (payload : Json) : List (JStr × JStr) :=
  (toolsSection payload (textSection payload (baseFields payload)).1).2

/-- The ordered `input` array: items contributed by the messages in
order. -/
def inputItems (payload : Json) : List Json :=
  (msgsOf payload).flatMap (convMessage (toolMapOf payload))

/-- The `store` flag of the converted payload. -/
def storeFlagOf (payload : Json) : Bool :=
  (textSection payload (baseFields payload)).2

/-! ### Responses → Chat streaming event rewriting
(`part_000` `mapResponsesEventToChatChunk`, lines 1028–1085) -/

/-- Per-stream translator state (`{fnIdx, model, response_id, created_at,
inited}`); all fields start undefined / falsy. -/
structure StreamState where
  inited : Bool := false
  response_id : Option Json := none
  created_at : Option Json := none
  model : Option Json := none
  fnIdx : Option Int := none

/-- The event type string, when present. -/
def evtType (evt : Json) : Option String :=
  match evt.getField "type" with
  | some (.str t) => some t
  | _ => none

/-- Optional chain `evt?.response?.k`. -/
def respField (evt : Json) (k : String) : Option Json :=
  (evt.getField "response").bind (fun r => r.getField k)

/-- `state.fnIdx != null && state.fnIdx >= 0`: a `function_call` chunk has
been emitted earlier in this stream. -/
def fnEmitted (st : StreamState) : Bool :=
  match st.fnIdx with
  | some v => 0 ≤ v
  | none => false

/-- The chunk skeleton `base` with the per-case delta fields appended after
`role` and the optional finish reason (both `finish_reason` and
`native_finish_reason`). -/
def mkChunk (st : StreamState) (now : Int) (delta : List (String × Json))
    (finish : Option String) : Json :=
  let fr : Json :=
    match finish with
    | some f => .str f
    | none => .null
  .obj [("id", jsOr st.response_id (.str "")),
    ("object", .str "chat.completion.chunk"),
    ("created", jsOr st.created_at (.num now)),
    ("model", jsOr st.model (.str "gpt-5")),
    ("choices", .arr [Json.obj [
      ("index", .num 0),
      ("delta", .obj (("role", .str "assistant") :: delta)),
      ("finish_reason", fr),
      ("native_finish_reason", fr)]])]

/-- De-shortened tool name: `revMap[nameShort] || nameShort`. -/
def deshorten (revMap : List (JStr × JStr)) (nameShort : String) : String :=
  match getRecord revMap nameShort.data with
  | some v => if v ≠ [] then String.mk v else nameShort
  | none => nameShort

/-- From `part_000` `mapResponsesEventToChatChunk`: consumes one parsed SSE
event, returns the emitted chat chunk (if any) and the updated state.
`now` models `Date.now() / 1000 | 0`.  (The enclosing stream loop parses
each `data: <json>` line before calling this; lines that are not data lines
or fail to parse produce nothing.) -/
def mapResponsesEventToChatChunk (evt : Json) (st : StreamState)
    (revMap : List (JStr × JStr)) (now : Int) : Option Json × StreamState :=
  if st.inited = false ∧ evtType evt = some "response.created" then
    (none, { st with
      inited := true
      response_id := some (jsOr (respField evt "id") (.str ""))
      created_at := some (jsOr (respField evt "created_at") (.num now))
      model := some (jsOr (respField evt "model")
        (jsOr st.model (.str "gpt-5"))) })
  else if evtType evt = some "response.reasoning_summary_text.delta" then
    (some (mkChunk st now
      [("reasoning_content", jsOr (evt.getField "delta") (.str ""))] none), st)
  else if evtType evt = some "response.reasoning_summary_text.done" then
    (some (mkChunk st now [("reasoning_content", .str "\n\n")] none), st)
  else if evtType evt = some "response.output_text.delta" then
    (some (mkChunk st now
      [("content", jsOr (evt.getField "delta") (.str ""))] none), st)
  else if evtType evt = some "response.output_item.done" then
    match evt.getField "item" with
    | some item =>
        if typeIs item "function_call" then
          let fnIdx := st.fnIdx.getD (-1) + 1
          let nameShort :=
            match jsOr (item.getField "name") (.str "") with
            | .str s => s
            | _ => ""
          some (mkChunk st now [("tool_calls", .arr [Json.obj [
              ("index", .num fnIdx),
              ("id", jsOr (item.getField "call_id") (.str "")),
              ("type", .str "function"),
              ("function", .obj [
                ("name", .str (deshorten revMap nameShort)),
                ("arguments", jsOr (item.getField "arguments") (.str ""))])]])]
            none) |> fun c => (c, { st with fnIdx := some fnIdx })
        else (none, st)
    | none => (none, st)
  else if evtType evt = some "response.completed" then
    (some (mkChunk st now []
      (some (if fnEmitted st then "tool_calls" else "stop"))), st)
  else (none, st)

/-- The five event types that produce a chat chunk. -/
def emittingEventTypes : List String :=
  ["response.reasoning_summary_text.delta",
   "response.reasoning_summary_text.done",
   "response.output_text.delta",
   "response.output_item.done",
   "response.completed"]

/-! ### Definitions above, theorems below.  (Further definitions for the
translator claims are inserted before this marker.) -/

/-- Updating `last_used` does not change usability. -/
theorem usableTok_set_lastUsed (t : TokenRecord) (now v : Int) :
    usableTok now { t with last_used := some v } = usableTok now t := rfl

/-- The request-time cooldown is 3 hours exactly on the retriable codes. -/
theorem computeCooldownMs_eq (code : Int) (fc : Nat) :
    computeCooldownMs code fc =
      if code ∈ requestRetriableCodes then 3 * 60 * 60 * 1000 else 0 := by
  simp [computeCooldownMs, requestRetriableCodes]

/-- C3: after a request-time failure is marked via `markFailure(a, s)`:
for `s` in `{401,403,408,429,500,502,503,504}` the cooldown becomes
`now + 3 h` (so `is_cooling_down` holds at any instant before that); for any
other `s` the cooldown is unchanged; in both cases `fail_count` is
incremented and `last_error_code` is set to `s`. -/
theorem markFailure_requestCooldownPolicy (rec : TokenRecord) (code now : Int) :
    (markFailure rec code now).fail_count = some (rec.fail_count.getD 0 + 1) ∧
    (markFailure rec code now).last_error_code = some code ∧
    (code ∈ requestRetriableCodes →
      (markFailure rec code now).cooldown_until =
          some (now + 3 * 60 * 60 * 1000) ∧
      ∀ t : Int, t < now + 3 * 60 * 60 * 1000 →
        isCoolingDown (markFailure rec code now) t = true) ∧
    (code ∉ requestRetriableCodes →
      (markFailure rec code now).cooldown_until = rec.cooldown_until) := by
  refine ⟨rfl, rfl, ?_, ?_⟩
  · intro hmem
    have hcd : (markFailure rec code now).cooldown_until =
        some (now + 3 * 60 * 60 * 1000) := by
      simp [markFailure, computeCooldownMs_eq, hmem]
    refine ⟨hcd, ?_⟩
    intro t ht
    simp only [isCoolingDown, hcd, decide_eq_true_eq]
    omega
  · intro hmem
    simp [markFailure, computeCooldownMs_eq, hmem]

/-- Witness for C3 at a concrete account and codes 429 and 600. -/
theorem markFailure_requestCooldownPolicy_witness :
    (markFailure { id := "a" } 429 1000).cooldown_until =
        some (1000 + 3 * 60 * 60 * 1000) ∧
    isCoolingDown (markFailure { id := "a" } 429 1000) 5000 = true ∧
    (markFailure { id := "a" } 600 1000).cooldown_until = none := by
  have h1 := (markFailure_requestCooldownPolicy { id := "a" } 429 1000).2.2.1
    (by decide)
  have h2 := (markFailure_requestCooldownPolicy { id := "a" } 600 1000).2.2.2
    (by decide)
  exact ⟨h1.1, h1.2 5000 (by decide), h2⟩

/-- C9 (counterexample): the claim says `readRR` always returns a
non-negative integer, but on file content `"-5"` (parseable, hence not
garbled) it returns −5. -/
theorem readRR_negative_counterexample :
    readRR (some "-5") = -5 ∧ ¬ (0 ≤ readRR (some "-5")) := by decide

/-- C9 (amended): `readRR` returns 0 when the file is missing or its content
is unparseable, otherwise returns the parsed integer (so the result is
non-negative whenever the content does not denote a negative number). -/
theorem readRR_spec :
    readRR none = 0 ∧
    (∀ s, parseIntDec s = none → readRR (some s) = 0) ∧
    (∀ s n, parseIntDec s = some n → 0 ≤ n → 0 ≤ readRR (some s)) ∧
    (∀ s, readRR (some s) = 0 ∨ parseIntDec s = some (readRR (some s))) := by
  refine ⟨rfl, ?_, ?_, ?_⟩
  · intro s h
    simp [readRR, h]
  · intro s n h hn
    simp only [readRR, h]
    split
    · omega
    · exact hn
  · intro s
    cases hp : parseIntDec s with
    | none => simp [readRR, hp]
    | some v =>
        simp only [readRR, hp]
        by_cases hv : v = 0
        · simp [hv]
        · simp [hv, hp]

/-- Witness for C9's amended statement at concrete contents. -/
theorem readRR_spec_witness :
    readRR (some "7") = 7 ∧ 0 ≤ readRR (some "7") ∧ readRR (some "abc") = 0 := by
  have h1 := readRR_spec.2.2.1 "7" 7 (by decide) (by decide)
  have h2 := readRR_spec.2.1 "abc" (by decide)
  exact ⟨by decide, h1, h2⟩

/-- C4: when a refresh succeeds (2xx), the returned and persisted account
has `fail_count = 0`, cleared `cooldown_until` and `last_error_code`,
`last_refresh = now`, the new tokens (falling back to the old ones when the
reply omits one), `email`/`account_id` from the decoded id_token payload,
and `expire` computed from `expires_in`. -/
theorem refreshToken_success (refreshing : List String) (rec : TokenRecord)
    (reply : FetchReply) (meta : JwtMeta) (now : Int)
    (hrt : rec.refresh_token ≠ none)
    (hflight : rec.id ∉ refreshing)
    (hok : respOk reply.status = true) :
    ∃ u, (refreshToken refreshing rec reply meta now).result = some u ∧
      (refreshToken refreshing rec reply meta now).updates = [u] ∧
      u.fail_count = some 0 ∧
      u.cooldown_until = none ∧
      u.last_error_code = none ∧
      u.last_refresh = some now ∧
      u.access_token = reply.body.access_token.or rec.access_token ∧
      u.refresh_token = reply.body.refresh_token.or rec.refresh_token ∧
      u.id_token = reply.body.id_token.or rec.id_token ∧
      u.email = meta.email.or rec.email ∧
      u.account_id = meta.account_id.or rec.account_id ∧
      u.expire = (parseExpireSeconds reply.body.expires_in now).or rec.expire ∧
      u.id = rec.id := by
  simp only [refreshToken, if_neg hrt, if_neg hflight, hok, Bool.not_true,
    Bool.false_eq_true, if_false]
  exact ⟨_, rfl, rfl, rfl, rfl, rfl, rfl, rfl, rfl, rfl, rfl, rfl, rfl, rfl⟩

/-- Witness for C4: concrete successful refresh. -/
theorem refreshToken_success_witness :
    ∃ u, (refreshToken [] { id := "a", refresh_token := some "r", fail_count := some 7 }
        { status := 200,
          body := { access_token := some "X", expires_in := some 3600 } }
        { email := some "e@x" } 5).result = some u ∧
      u.fail_count = some 0 ∧ u.cooldown_until = none ∧
      u.access_token = some "X" ∧ u.expire = some (5 + 3600 * 1000) ∧
      u.email = some "e@x" := by
  obtain ⟨u, h1, _, h3, h4, _, _, h7, _, _, h10, _, h12, _⟩ :=
    refreshToken_success []
      { id := "a", refresh_token := some "r", fail_count := some 7 }
      { status := 200,
        body := { access_token := some "X", expires_in := some 3600 } }
      { email := some "e@x" } 5 (by decide) (by decide) (by decide)
  refine ⟨u, h1, h3, h4, ?_, ?_, ?_⟩
  · simpa using h7
  · rw [h12]; decide
  · simpa using h10

/-- C5: a failed refresh (non-2xx status `s`) increments `fail_count`,
records `last_error_code = s`, returns no renewed account, and sets
`cooldown_until` to now plus: 30 min on 429; 10 min on 401/403;
`min(30 min, 2^min(fc,5)·60 s)` (with `fc` the incremented fail count) on
408/500/502/503/504; unchanged otherwise.  Each refresh-time cooldown is
strictly below the request-time 3-hour policy on every retriable code. -/
theorem refreshToken_failureCooldownPolicy (refreshing : List String)
    (rec : TokenRecord) (reply : FetchReply) (meta : JwtMeta) (now : Int)
    (hrt : rec.refresh_token ≠ none)
    (hflight : rec.id ∉ refreshing)
    (hbad : respOk reply.status = false) :
    (refreshToken refreshing rec reply meta now).result = none ∧
    ∃ u, (refreshToken refreshing rec reply meta now).updates = [u] ∧
      u.fail_count = some (rec.fail_count.getD 0 + 1) ∧
      u.last_error_code = some reply.status ∧
      (reply.status = 429 →
        u.cooldown_until = some (now + 30 * 60 * 1000)) ∧
      (reply.status = 401 ∨ reply.status = 403 →
        u.cooldown_until = some (now + 10 * 60 * 1000)) ∧
      (reply.status = 408 ∨ reply.status = 500 ∨ reply.status = 502 ∨
          reply.status = 503 ∨ reply.status = 504 →
        u.cooldown_until = some (now + min (30 * 60 * 1000)
          ((2 ^ min (rec.fail_count.getD 0 + 1) 5 : Int) * 60 * 1000))) ∧
      ((reply.status ∉ requestRetriableCodes) →
        u.cooldown_until = rec.cooldown_until) ∧
      (∀ c ∈ requestRetriableCodes, ∀ fc : Nat,
        refreshCooldownMs c fc < computeCooldownMs c fc) := by
  have hunfold : refreshToken refreshing rec reply meta now =
      ⟨none,
        [{ rec with
            last_error_code := some reply.status
            fail_count := some (rec.fail_count.getD 0 + 1)
            cooldown_until :=
              if refreshCooldownMs reply.status (rec.fail_count.getD 0 + 1) > 0
              then some (now +
                refreshCooldownMs reply.status (rec.fail_count.getD 0 + 1))
              else rec.cooldown_until }],
        (rec.id :: refreshing).erase rec.id, true⟩ := by
    simp [refreshToken, if_neg hrt, if_neg hflight, hbad]
  rw [hunfold]
  refine ⟨rfl, _, rfl, rfl, rfl, ?_, ?_, ?_, ?_, ?_⟩
  · intro h429
    have hcd : refreshCooldownMs reply.status (rec.fail_count.getD 0 + 1) =
        30 * 60 * 1000 := by
      simp [refreshCooldownMs, h429]
    simp [hcd]
  · intro hauth
    have hne : ¬ reply.status = 429 := by rcases hauth with h | h <;> omega
    have hcd : refreshCooldownMs reply.status (rec.fail_count.getD 0 + 1) =
        10 * 60 * 1000 := by
      simp [refreshCooldownMs, hne, hauth]
    simp [hcd]
  · intro htrans
    have hne : ¬ reply.status = 429 := by
      rcases htrans with h | h | h | h | h <;> omega
    have hne2 : ¬ (reply.status = 401 ∨ reply.status = 403) := by
      rcases htrans with h | h | h | h | h <;> omega
    have hcd : refreshCooldownMs reply.status (rec.fail_count.getD 0 + 1) =
        min (30 * 60 * 1000)
          ((2 ^ min (rec.fail_count.getD 0 + 1) 5 : Int) * 60 * 1000) := by
      simp [refreshCooldownMs, hne, hne2, htrans, Nat.succ_ne_zero]
    have hpos : (0 : Int) < min (30 * 60 * 1000)
        ((2 ^ min (rec.fail_count.getD 0 + 1) 5 : Int) * 60 * 1000) := by
      have h2 : (0 : Int) < 2 ^ min (rec.fail_count.getD 0 + 1) 5 :=
        pow_pos (by norm_num) _
      have : (0 : Int) < (2 ^ min (rec.fail_count.getD 0 + 1) 5 : Int) * 60 * 1000 := by
        positivity
      omega
    rw [hcd, if_pos hpos]
  · intro hother
    have hcd : refreshCooldownMs reply.status (rec.fail_count.getD 0 + 1) = 0 := by
      simp only [requestRetriableCodes, List.mem_cons, List.mem_singleton,
        not_or] at hother
      obtain ⟨h1, h2, h3, h4, h5, h6, h7, h8⟩ := hother
      simp [refreshCooldownMs, h1, h2, h3, h4, h5, h6, h7, h8]
    simp [hcd]
  · intro c hc fc
    have h30 : refreshCooldownMs c fc ≤ 30 * 60 * 1000 := by
        fin_cases hc <;> simp [refreshCooldownMs]
    have h3h : computeCooldownMs c fc = 3 * 60 * 60 * 1000 := by
      rw [computeCooldownMs_eq, if_pos hc]
    omega

/-- Witness for C5: concrete failed refreshes with statuses 429 and 500. -/
theorem refreshToken_failureCooldownPolicy_witness :
    (refreshToken [] { id := "a", refresh_token := some "r" }
        { status := 429 } {} 0).result = none ∧
    ∃ u, (refreshToken [] { id := "a", refresh_token := some "r" }
        { status := 429 } {} 0).updates = [u] ∧
      u.cooldown_until = some (30 * 60 * 1000) ∧ u.fail_count = some 1 := by
  obtain ⟨hres, u, hupd, hfc, _, h429, _⟩ :=
    refreshToken_failureCooldownPolicy [] { id := "a", refresh_token := some "r" }
      { status := 429 } {} 0 (by decide) (by decide) (by decide)
  refine ⟨hres, u, hupd, ?_, by simpa using hfc⟩
  simpa using h429 rfl

/-- C8: `refreshToken` returns no renewed account immediately — no upstream
call, no store write, in-flight set untouched — when the record has no
`refresh_token` (as is the case for every relay account created by
`POST /accounts/relay`) or when its id is already in the in-flight set; on
the main path the id is no longer in flight when the call finishes. -/
theorem refreshToken_singleFlightGuards (refreshing : List String)
    (rec : TokenRecord) (reply : FetchReply) (meta : JwtMeta) (now : Int) :
    (rec.refresh_token = none →
      refreshToken refreshing rec reply meta now =
        ⟨none, [], refreshing, false⟩) ∧
    (rec.id ∈ refreshing →
      refreshToken refreshing rec reply meta now =
        ⟨none, [], refreshing, false⟩) ∧
    (rec.refresh_token ≠ none → rec.id ∉ refreshing →
      (refreshToken refreshing rec reply meta now).refreshingAfter =
          refreshing ∧
      (refreshToken refreshing rec reply meta now).fetched = true) ∧
    (∀ id name burl key : String, ∀ ts : Int,
      (relayRecord id name burl key ts).refresh_token = none ∧
      refreshToken refreshing (relayRecord id name burl key ts) reply meta now =
        ⟨none, [], refreshing, false⟩) := by
  have hguard : ∀ r : TokenRecord, r.refresh_token = none →
      refreshToken refreshing r reply meta now = ⟨none, [], refreshing, false⟩ := by
    intro r h
    simp [refreshToken, h]
  refine ⟨hguard rec, ?_, ?_, ?_⟩
  · intro hmem
    by_cases h : rec.refresh_token = none
    · exact hguard rec h
    · simp [refreshToken, h, hmem]
  · intro hrt hmem
    have herase : (rec.id :: refreshing).erase rec.id = refreshing :=
      List.erase_cons_head rec.id refreshing
    simp only [refreshToken, if_neg hrt, if_neg hmem]
    constructor
    · split <;> exact herase
    · split <;> rfl
  · intro id name burl key ts
    exact ⟨rfl, hguard _ rfl⟩

/-- Witness for C8 at a concrete relay record and a concrete in-flight id. -/
theorem refreshToken_singleFlightGuards_witness :
    refreshToken ["a"] { id := "a", refresh_token := some "r" }
        { status := 200 } {} 0 = ⟨none, [], ["a"], false⟩ ∧
    refreshToken [] (relayRecord "b" "n" "u" "k" 0) { status := 200 } {} 0 =
        ⟨none, [], [], false⟩ ∧
    (refreshToken [] { id := "c", refresh_token := some "r" }
        { status := 200 } {} 0).refreshingAfter = [] := by
  have h1 := (refreshToken_singleFlightGuards ["a"]
    { id := "a", refresh_token := some "r" } { status := 200 } {} 0).2.1
    (by decide)
  have h2 := ((refreshToken_singleFlightGuards []
    (relayRecord "b" "n" "u" "k" 0) { status := 200 } {} 0).2.2.2
    "b" "n" "u" "k" 0).2
  have h3 := ((refreshToken_singleFlightGuards []
    { id := "c", refresh_token := some "r" } { status := 200 } {} 0).2.2.1
    (by decide) (by decide)).1
  exact ⟨h1, h2, h3⟩

/-- The normalised cursor is a valid index whenever the list is non-empty. -/
theorem normCursor_lt (total : Nat) (raw : Int) (h : total ≠ 0) :
    normCursor total raw < total := by
  unfold normCursor
  split
  · omega
  · omega

/-- `getD` at a valid index is the indexed element. -/
theorem getD_eq_of_lt (l : List TokenRecord) (n : Nat) (h : n < l.length) :
    l.getD n default = l[n] := by
  simp [List.getD_eq_getElem?_getD, List.getElem?_eq_getElem h]

/-- A `find?` over `range n` that succeeds at 0. -/
theorem find?_range_zero (p : Nat → Bool) (n : Nat) (hn : n ≠ 0)
    (hp : p 0 = true) : (List.range n).find? p = some 0 := by
  obtain ⟨k, rfl⟩ := Nat.exists_eq_succ_of_ne_zero hn
  rw [List.range_succ_eq_map]
  exact List.find?_cons_of_pos _ hp

/-- C2: for a non-empty account sequence, if any member is usable then
`selectNextToken` returns some usable member; and when the member at the
(normalised) current cursor is usable it returns exactly that member,
stamped with `last_used = now`, without writing the cursor. -/
theorem selectNextToken_stickyUsable (tokens : List TokenRecord)
    (rawStart now : Int) (hne : tokens ≠ []) :
    ((∃ t ∈ tokens, usableTok now t = true) →
      ∃ r, (selectNextToken tokens rawStart now).record = some r ∧
        usableTok now r = true) ∧
    (usableTok now
        (tokens.getD (normCursor tokens.length rawStart) default) = true →
      (selectNextToken tokens rawStart now).record =
        some { tokens.getD (normCursor tokens.length rawStart) default with
                 last_used := some now } ∧
      (selectNextToken tokens rawStart now).rrWrite = none ∧
      (selectNextToken tokens rawStart now).index =
        normCursor tokens.length rawStart) := by
  have htot : tokens.length ≠ 0 := by
    simpa [Ne, List.length_eq_zero] using hne
  have hstart : normCursor tokens.length rawStart < tokens.length :=
    normCursor_lt _ _ htot
  constructor
  · rintro ⟨t, htmem, htusable⟩
    obtain ⟨j, hj, hjt⟩ := List.mem_iff_getElem.mp htmem
    have hidx : (normCursor tokens.length rawStart +
        (j + (tokens.length - normCursor tokens.length rawStart)) %
          tokens.length) % tokens.length = j := by
      rw [Nat.add_mod_mod]
      have : normCursor tokens.length rawStart +
          (j + (tokens.length - normCursor tokens.length rawStart)) =
          j + tokens.length := by omega
      rw [this, Nat.add_mod_right, Nat.mod_eq_of_lt hj]
    have hp : usableTok now (tokens.getD
        ((normCursor tokens.length rawStart +
          (j + (tokens.length - normCursor tokens.length rawStart)) %
            tokens.length) % tokens.length) default) = true := by
      rw [hidx, getD_eq_of_lt tokens j hj, hjt]
      exact htusable
    have hsome : (selectScan tokens (normCursor tokens.length rawStart)
        now).isSome := by
      rw [selectScan, List.find?_isSome]
      refine ⟨_, ?_, hp⟩
      exact List.mem_range.mpr (Nat.mod_lt _ (Nat.pos_of_ne_zero htot))
    obtain ⟨i, hfind⟩ := Option.isSome_iff_exists.mp hsome
    have hpi := List.find?_some (by rw [selectScan] at hfind; exact hfind)
    simp only [selectNextToken, if_neg htot, hfind]
    by_cases hi : i = 0
    · subst hi
      rw [if_pos rfl]
      exact ⟨_, rfl, by rw [usableTok_set_lastUsed]; exact hpi⟩
    · rw [if_neg hi]
      exact ⟨_, rfl, by rw [usableTok_set_lastUsed]; exact hpi⟩
  · intro hcur
    have hfind0 : selectScan tokens (normCursor tokens.length rawStart) now =
        some 0 := by
      rw [selectScan]
      refine find?_range_zero _ _ htot ?_
      show usableTok now (tokens.getD
        ((normCursor tokens.length rawStart + 0) % tokens.length) default) = true
      rw [Nat.add_zero, Nat.mod_eq_of_lt hstart]
      exact hcur
    have hmod : (normCursor tokens.length rawStart + 0) % tokens.length =
        normCursor tokens.length rawStart := by
      rw [Nat.add_zero, Nat.mod_eq_of_lt hstart]
    simp only [selectNextToken, if_neg htot, hfind0, if_true]
    rw [hmod]
    exact ⟨by trivial, by trivial, by trivial⟩

/-- Witness for C2: two accounts, the one at the cursor usable. -/
theorem selectNextToken_stickyUsable_witness :
    (selectNextToken [{ id := "a" }, { id := "b" }] 1 0).record =
        some { id := "b", last_used := some 0 } ∧
    (selectNextToken [{ id := "a" }, { id := "b" }] 1 0).rrWrite = none ∧
    (∃ r, (selectNextToken [{ id := "a" }, { id := "b", disabled := true }] 5
        0).record = some r ∧ usableTok 0 r = true) := by
  have h1 := (selectNextToken_stickyUsable [{ id := "a" }, { id := "b" }] 1 0
    (by decide)).2 (by decide)
  have h2 := (selectNextToken_stickyUsable
    [{ id := "a" }, { id := "b", disabled := true }] 5 0 (by decide)).1
    ⟨{ id := "a" }, by decide, by decide⟩
  refine ⟨?_, h1.2.1, h2⟩
  have := h1.1
  simpa using this

/-- C10: cursor validity is an invariant of the selector operations: every
cursor value written by `selectNextToken` or `advanceToNextUsableToken` lies
in `[0, N)`; both report an in-range index on non-empty sequences; and an
out-of-range stored cursor (negative or ≥ N) is interpreted as position 0,
making the operation behave exactly as with cursor 0. -/
theorem selectorCursorInvariant (tokens : List TokenRecord)
    (rawStart now : Int) :
    (∀ v, (selectNextToken tokens rawStart now).rrWrite = some v →
      v < tokens.length) ∧
    (∀ v, (advanceToNextUsableToken tokens rawStart now).rrWrite = some v →
      v < tokens.length) ∧
    (tokens ≠ [] →
      (selectNextToken tokens rawStart now).index < tokens.length) ∧
    (tokens ≠ [] →
      (advanceToNextUsableToken tokens rawStart now).index < tokens.length) ∧
    ((rawStart < 0 ∨ (tokens.length : Int) ≤ rawStart) →
      selectNextToken tokens rawStart now = selectNextToken tokens 0 now ∧
      advanceToNextUsableToken tokens rawStart now =
        advanceToNextUsableToken tokens 0 now) := by
  by_cases htot : tokens.length = 0
  · refine ⟨?_, ?_, ?_, ?_, ?_⟩
    · intro v hv
      simp [selectNextToken, htot] at hv
    · intro v hv
      simp [advanceToNextUsableToken, htot] at hv
    · intro hne
      exact absurd (List.length_eq_zero.mp htot) hne
    · intro hne
      exact absurd (List.length_eq_zero.mp htot) hne
    · intro _
      constructor <;> simp [selectNextToken, advanceToNextUsableToken, htot]
  · have hpos : 0 < tokens.length := Nat.pos_of_ne_zero htot
    refine ⟨?_, ?_, ?_, ?_, ?_⟩
    · intro v hv
      simp only [selectNextToken, if_neg htot] at hv
      rcases hscan : selectScan tokens (normCursor tokens.length rawStart) now
        with _ | i
      · simp only [hscan] at hv
        simp at hv
      · simp only [hscan] at hv
        by_cases hi : i = 0
        · subst hi
          simp at hv
        · rw [if_neg hi] at hv
          have hvv : (normCursor tokens.length rawStart + i) % tokens.length = v := by
            simpa using hv
          rw [← hvv]
          exact Nat.mod_lt _ hpos
    · intro v hv
      simp only [advanceToNextUsableToken, if_neg htot] at hv
      rcases hscan : advanceScan tokens (normCursor tokens.length rawStart) now
        with _ | j
      · simp only [hscan] at hv
        simp at hv
      · simp only [hscan] at hv
        have hvv : (normCursor tokens.length rawStart + j + 1) % tokens.length = v := by
          simpa using hv
        rw [← hvv]
        exact Nat.mod_lt _ hpos
    · intro _
      simp only [selectNextToken, if_neg htot]
      rcases hscan : selectScan tokens (normCursor tokens.length rawStart) now
        with _ | i
      · simp only [hscan]
        exact Nat.mod_lt _ hpos
      · simp only [hscan]
        split <;> exact Nat.mod_lt _ hpos
    · intro _
      simp only [advanceToNextUsableToken, if_neg htot]
      rcases hscan : advanceScan tokens (normCursor tokens.length rawStart) now
        with _ | j
      · simp only [hscan]
        exact Nat.mod_lt _ hpos
      · simp only [hscan]
        exact Nat.mod_lt _ hpos
    · intro hbad
      have hn1 : normCursor tokens.length rawStart = 0 := by
        unfold normCursor
        rw [if_neg]
        omega
      have hn2 : normCursor tokens.length 0 = 0 := by
        unfold normCursor
        rw [if_pos ⟨le_refl 0, by exact_mod_cast hpos⟩]
        rfl
      constructor
      · simp only [selectNextToken, hn1, hn2]
      · simp only [advanceToNextUsableToken, hn1, hn2]

/-- Witness for C10: a stored cursor of 7 on a 2-element sequence behaves as
cursor 0, and the cursor written by an advance is in range. -/
theorem selectorCursorInvariant_witness :
    selectNextToken [{ id := "a" }, { id := "b" }] 7 0 =
      selectNextToken [{ id := "a" }, { id := "b" }] 0 0 ∧
    (selectNextToken [{ id := "a" }, { id := "b" }] 7 0).index < 2 ∧
    (∀ v, (advanceToNextUsableToken [{ id := "a" }, { id := "b" }] 7 0).rrWrite =
      some v → v < 2) := by
  have h := selectorCursorInvariant [{ id := "a" }, { id := "b" }] 7 0
  exact ⟨(h.2.2.2.2 (by decide)).1, h.2.2.1 (by decide), h.2.1⟩

/-! ### Tool-name map: injectivity and length lemmas -/

/-- Code point of a decimal digit character. -/
theorem digitChar_toNat (d : Nat) (hd : d < 10) :
    (Char.ofNat (48 + d)).toNat = 48 + d := by
  interval_cases d <;> rfl

/-- Digit characters are injective below 10. -/
theorem digitChar_inj {a b : Nat} (ha : a < 10) (hb : b < 10)
    (h : Char.ofNat (48 + a) = Char.ofNat (48 + b)) : a = b := by
  have h1 := digitChar_toNat a ha
  have h2 := digitChar_toNat b hb
  rw [h] at h1
  omega

/-- Mapping digit lists to characters is injective. -/
theorem map_digitChar_inj :
    ∀ (l1 l2 : List Nat), (∀ d ∈ l1, d < 10) → (∀ d ∈ l2, d < 10) →
      l1.map (fun d => Char.ofNat (48 + d)) =
        l2.map (fun d => Char.ofNat (48 + d)) →
      l1 = l2
  | [], [], _, _, _ => rfl
  | [], _ :: _, _, _, h => by simp at h
  | _ :: _, [], _, _, h => by simp at h
  | a :: l1, b :: l2, h1, h2, h => by
      simp only [List.map_cons, List.cons.injEq] at h
      have hab : a = b :=
        digitChar_inj (h1 a (by simp)) (h2 b (by simp)) h.1
      have hrest := map_digitChar_inj l1 l2
        (fun d hd => h1 d (by simp [hd])) (fun d hd => h2 d (by simp [hd])) h.2
      rw [hab, hrest]

/-- The decimal rendering of a natural number is injective. -/
theorem natChars_inj {i j : Nat} (h : natChars i = natChars j) : i = j := by
  unfold natChars at h
  have hd : (Nat.digits 10 i).reverse = (Nat.digits 10 j).reverse :=
    map_digitChar_inj _ _
      (fun d hd => Nat.digits_lt_base (by norm_num) (List.mem_reverse.mp hd))
      (fun d hd => Nat.digits_lt_base (by norm_num) (List.mem_reverse.mp hd)) h
  have hdig : Nat.digits 10 i = Nat.digits 10 j := List.reverse_inj.mp hd
  calc i = Nat.ofDigits 10 (Nat.digits 10 i) := (Nat.ofDigits_digits 10 i).symm
    _ = Nat.ofDigits 10 (Nat.digits 10 j) := by rw [hdig]
    _ = j := Nat.ofDigits_digits 10 j

/-- Length of the decimal rendering. -/
theorem natChars_length (i : Nat) :
    (natChars i).length = (Nat.digits 10 i).length := by
  simp [natChars]

/-- Suffix candidates with equally long indices are injective in the
index. -/
theorem mkCand_inj {base : JStr} {i j : Nat}
    (hlen : (Nat.digits 10 i).length = (Nat.digits 10 j).length)
    (h : mkCand base i = mkCand base j) : i = j := by
  simp only [mkCand] at h
  have hsl : ('~' :: natChars i).length = ('~' :: natChars j).length := by
    simp [natChars_length, hlen]
  rw [hsl] at h
  have htail := List.append_cancel_left h
  have hx : natChars i = natChars j := by
    injection htail
  exact natChars_inj hx

/-- A number below `10 ^ n` has at most `n` digits. -/
theorem digitsLen_le_of_lt {m n : Nat} (h : m < 10 ^ n) :
    (Nat.digits 10 m).length ≤ n := by
  rcases Nat.eq_zero_or_pos m with rfl | hm
  · simp
  · rw [Nat.digits_len 10 m (by norm_num) (by omega)]
    have := (Nat.lt_pow_iff_log_lt (by norm_num : (1 : Nat) < 10)
      (by omega : m ≠ 0)).mp h
    omega

/-- All numbers `10^L + k` with `k ≤ N` and `L = digits(N)` have exactly
`L + 1` digits. -/
theorem digits_len_decade {N k : Nat} (hk : k ≤ N) :
    (Nat.digits 10 (10 ^ (Nat.digits 10 N).length + k)).length =
      (Nat.digits 10 N).length + 1 := by
  set L := (Nat.digits 10 N).length with hL
  have hNP : N < 10 ^ L := Nat.lt_base_pow_length_digits (by norm_num)
  have hP1 : 1 ≤ 10 ^ L := Nat.one_le_pow _ _ (by norm_num)
  rw [Nat.digits_len 10 _ (by norm_num) (by omega)]
  have hlog : Nat.log 10 (10 ^ L + k) = L := by
    apply Nat.log_eq_of_pow_le_of_lt_pow
    · omega
    · have hmul : 10 ^ (L + 1) = 10 * 10 ^ L := by ring
      omega
  omega

/-- Pigeonhole: among the `|used| + 1` candidates in the decade past
`10 ^ digits(|used|)` one is not in `used`. -/
theorem exists_free_cand (used : List JStr) (base : JStr) :
    ∃ k, k ≤ used.length ∧
      mkCand base (10 ^ (Nat.digits 10 used.length).length + k) ∉ used := by
  by_contra hall
  push_neg at hall
  set L := (Nat.digits 10 used.length).length with hLdef
  have hnodup : ((List.range (used.length + 1)).map
      (fun k => mkCand base (10 ^ L + k))).Nodup := by
    refine List.Nodup.map_on ?_ (List.nodup_range _)
    intro x hx y hy hxy
    have hx' : x ≤ used.length := by
      have := List.mem_range.mp hx
      omega
    have hy' : y ≤ used.length := by
      have := List.mem_range.mp hy
      omega
    have h1 := digits_len_decade hx'
    have h2 := digits_len_decade hy'
    have := mkCand_inj (h1.trans h2.symm) hxy
    omega
  have hsub : ((List.range (used.length + 1)).map
      (fun k => mkCand base (10 ^ L + k))) ⊆ used := by
    intro c hc
    obtain ⟨k, hk, rfl⟩ := List.mem_map.mp hc
    refine hall k ?_
    have := List.mem_range.mp hk
    omega
  have hle := (List.subperm_of_subset hnodup hsub).length_le
  simp only [List.length_map, List.length_range] at hle
  omega

/-- The collision loop returns an unused candidate whenever one exists in
its fuel window. -/
theorem makeUniqueGo_not_mem (used : List JStr) (base : JStr) :
    ∀ (fuel i0 : Nat),
      (∃ m, i0 ≤ m ∧ m < i0 + fuel ∧ mkCand base m ∉ used) →
      makeUniqueGo used base fuel i0 ∉ used
  | 0, i0, h => by
      obtain ⟨m, h1, h2, _⟩ := h
      omega
  | fuel + 1, i0, h => by
      simp only [makeUniqueGo]
      by_cases hmem : mkCand base i0 ∈ used
      · rw [if_pos hmem]
        apply makeUniqueGo_not_mem used base fuel (i0 + 1)
        obtain ⟨m, h1, h2, h3⟩ := h
        have hne : m ≠ i0 := by
          intro he
          rw [he] at h3
          exact h3 hmem
        exact ⟨m, by omega, by omega, h3⟩
      · rw [if_neg hmem]
        exact hmem

/-- The collision loop always returns some `~m` candidate with `m` in its
fuel window. -/
theorem makeUniqueGo_shape (used : List JStr) (base : JStr) :
    ∀ (fuel i0 : Nat), ∃ m, i0 ≤ m ∧ m ≤ i0 + fuel ∧
      makeUniqueGo used base fuel i0 = mkCand base m
  | 0, i0 => ⟨i0, le_refl _, by omega, rfl⟩
  | fuel + 1, i0 => by
      simp only [makeUniqueGo]
      by_cases hmem : mkCand base i0 ∈ used
      · rw [if_pos hmem]
        obtain ⟨m, h1, h2, h3⟩ := makeUniqueGo_shape used base fuel (i0 + 1)
        exact ⟨m, by omega, by omega, h3⟩
      · rw [if_neg hmem]
        exact ⟨i0, le_refl _, by omega, rfl⟩

/-- `makeUnique` never returns a used name. -/
theorem makeUnique_not_mem (used : List JStr) (cand : JStr) :
    makeUnique used cand ∉ used := by
  unfold makeUnique
  by_cases h : cand ∈ used
  · rw [if_pos h]
    apply makeUniqueGo_not_mem
    obtain ⟨k, hk, hfree⟩ := exists_free_cand used cand
    have hP1 : 1 ≤ 10 ^ (Nat.digits 10 used.length).length :=
      Nat.one_le_pow _ _ (by norm_num)
    refine ⟨10 ^ (Nat.digits 10 used.length).length + k, by omega, ?_, hfree⟩
    unfold makeUniqueFuel
    omega
  · rw [if_neg h]
    exact h

/-- `makeUnique` keeps an unused candidate unchanged. -/
theorem makeUnique_id (used : List JStr) (cand : JStr) (h : cand ∉ used) :
    makeUnique used cand = cand := by
  unfold makeUnique
  rw [if_neg h]

/-- A suffix candidate with at most 63 index digits fits in 64
characters. -/
theorem mkCand_length_le {base : JStr} {i : Nat}
    (hi : (Nat.digits 10 i).length ≤ 63) : (mkCand base i).length ≤ 64 := by
  simp only [mkCand, List.length_append, List.length_take, List.length_cons,
    natChars_length]
  omega

/-- Every shortened base candidate fits in 64 characters. -/
theorem shortenNameIfNeeded_le (n : JStr) :
    (shortenNameIfNeeded n).length ≤ 64 := by
  simp only [shortenNameIfNeeded]
  split
  · omega
  · split
    · split
      · simp only [List.length_take]
        omega
      · omega
    · simp only [List.length_take]
      omega

/-- Identity of the shortener on short names. -/
theorem shortenNameIfNeeded_id (n : JStr) (h : n.length ≤ 64) :
    shortenNameIfNeeded n = n := by
  simp only [shortenNameIfNeeded]
  rw [if_pos h]

/-- `makeUnique` keeps the 64-character bound whenever the used set has at
most `2^32` entries (a JS array can never be longer). -/
theorem makeUnique_length (used : List JStr) (cand : JStr)
    (hused : used.length ≤ 2 ^ 32) (hcand : cand.length ≤ 64) :
    (makeUnique used cand).length ≤ 64 := by
  unfold makeUnique
  by_cases h : cand ∈ used
  · rw [if_pos h]
    obtain ⟨m, h1, h2, h3⟩ := makeUniqueGo_shape used cand (makeUniqueFuel used) 1
    rw [h3]
    apply mkCand_length_le
    apply digitsLen_le_of_lt
    have hL : (Nat.digits 10 used.length).length ≤ 10 := by
      apply digitsLen_le_of_lt
      have hc : (2 : Nat) ^ 32 < 10 ^ 10 := by norm_num
      omega
    have hpow : 10 ^ (Nat.digits 10 used.length).length ≤ 10 ^ 10 :=
      Nat.pow_le_pow_right (by norm_num) hL
    have hfuel : makeUniqueFuel used ≤ 10 ^ 10 + 2 ^ 32 + 1 := by
      unfold makeUniqueFuel
      omega
    have hbig : (10 : Nat) ^ 10 + 2 ^ 32 + 2 < 10 ^ 63 := by norm_num
    omega
  · rw [if_neg h]
    exact hcand

/-- Lookup after a write at the same key. -/
theorem getRecord_set_self (m : List (JStr × JStr)) (k v : JStr) :
    getRecord (setRecord m k v) k = some v := by
  simp [getRecord, setRecord]

/-- Lookup after a write at a different key. -/
theorem getRecord_set_other (m : List (JStr × JStr)) (k v k' : JStr)
    (h : k' ≠ k) : getRecord (setRecord m k v) k' = getRecord m k' := by
  simp only [getRecord, setRecord]
  rw [List.find?_cons_of_neg]
  simp [Ne.symm h]

/-- Keys outside the remaining names are untouched by the main loop. -/
theorem buildGo_frame :
    ∀ (names : List JStr) (used : List JStr) (map : List (JStr × JStr))
      (k : JStr), k ∉ names →
      getRecord (buildShortNameMapGo used map names) k = getRecord map k
  | [], _, _, _, _ => rfl
  | n :: rest, used, map, k, hk => by
      simp only [buildShortNameMapGo]
      have hk1 : k ≠ n := fun he => hk (he ▸ List.mem_cons_self n rest)
      have hk2 : k ∉ rest := fun hm => hk (List.mem_cons_of_mem _ hm)
      rw [buildGo_frame rest _ _ k hk2, getRecord_set_other _ _ _ _ hk1]

/-- The main loop preserves value-injectivity given that all current values
are in the used set. -/
theorem buildGo_inj :
    ∀ (names : List JStr) (used : List JStr) (map : List (JStr × JStr)),
      (∀ k v, getRecord map k = some v → v ∈ used) →
      (∀ k1 v1 k2 v2, getRecord map k1 = some v1 →
        getRecord map k2 = some v2 → k1 ≠ k2 → v1 ≠ v2) →
      ∀ k1 v1 k2 v2,
        getRecord (buildShortNameMapGo used map names) k1 = some v1 →
        getRecord (buildShortNameMapGo used map names) k2 = some v2 →
        k1 ≠ k2 → v1 ≠ v2
  | [], used, map, _, hI => by
      simpa [buildShortNameMapGo] using hI
  | n :: rest, used, map, hV, hI => by
      simp only [buildShortNameMapGo]
      apply buildGo_inj rest
      · intro k v hget
        by_cases hk : k = n
        · subst hk
          rw [getRecord_set_self] at hget
          cases hget
          exact List.mem_cons_self _ _
        · rw [getRecord_set_other _ _ _ _ hk] at hget
          exact List.mem_cons_of_mem _ (hV k v hget)
      · intro k1 v1 k2 v2 h1 h2 hne
        by_cases hk1 : k1 = n <;> by_cases hk2 : k2 = n
        · exact absurd (hk1.trans hk2.symm) hne
        · subst hk1
          rw [getRecord_set_self] at h1
          cases h1
          rw [getRecord_set_other _ _ _ _ hk2] at h2
          intro he
          exact makeUnique_not_mem used _ (he ▸ hV k2 v2 h2)
        · subst hk2
          rw [getRecord_set_self] at h2
          cases h2
          rw [getRecord_set_other _ _ _ _ hk1] at h1
          intro he
          exact makeUnique_not_mem used _ (he ▸ hV k1 v1 h1)
        · rw [getRecord_set_other _ _ _ _ hk1] at h1
          rw [getRecord_set_other _ _ _ _ hk2] at h2
          exact hI k1 v1 k2 v2 h1 h2 hne

/-- The main loop keeps every mapped value within 64 characters, for any
possible JS input size. -/
theorem buildGo_len :
    ∀ (names : List JStr) (used : List JStr) (map : List (JStr × JStr)),
      used.length + names.length ≤ 2 ^ 32 →
      (∀ k v, getRecord map k = some v → v.length ≤ 64) →
      ∀ k v, getRecord (buildShortNameMapGo used map names) k = some v →
        v.length ≤ 64
  | [], used, map, _, hB => by
      simpa [buildShortNameMapGo] using hB
  | n :: rest, used, map, hlen, hB => by
      simp only [buildShortNameMapGo]
      apply buildGo_len rest
      · simp only [List.length_cons]
        simp only [List.length_cons] at hlen
        omega
      · intro k v hget
        by_cases hk : k = n
        · subst hk
          rw [getRecord_set_self] at hget
          have hv := Option.some.inj hget
          rw [← hv]
          apply makeUnique_length
          · simp only [List.length_cons] at hlen
            omega
          · exact shortenNameIfNeeded_le k
        · rw [getRecord_set_other _ _ _ _ hk] at hget
          exact hB k v hget

/-- On pairwise distinct names of length ≤ 64 that avoid the used set, the
main loop maps every name to itself. -/
theorem buildGo_id :
    ∀ (names : List JStr) (used : List JStr) (map : List (JStr × JStr)),
      names.Nodup → (∀ n ∈ names, n.length ≤ 64) →
      (∀ n ∈ names, n ∉ used) →
      ∀ n ∈ names, getRecord (buildShortNameMapGo used map names) n = some n
  | [], _, _, _, _, _ => by simp
  | n :: rest, used, map, hnd, hle, hav => by
      simp only [buildShortNameMapGo]
      have hshort : shortenNameIfNeeded n = n :=
        shortenNameIfNeeded_id n (hle n (List.mem_cons_self _ _))
      have huniq : makeUnique used (shortenNameIfNeeded n) = n := by
        rw [hshort]
        exact makeUnique_id used n (hav n (List.mem_cons_self _ _))
      intro m hm
      rcases List.mem_cons.mp hm with rfl | hmrest
      · have hnotin : m ∉ rest := (List.nodup_cons.mp hnd).1
        rw [buildGo_frame rest _ _ m hnotin, huniq, getRecord_set_self]
      · apply buildGo_id rest _ _ (List.nodup_cons.mp hnd).2
          (fun x hx => hle x (List.mem_cons_of_mem _ hx)) ?_ m hmrest
        intro x hx
        simp only [List.mem_cons, not_or]
        constructor
        · intro he
          rw [huniq] at he
          exact (List.nodup_cons.mp hnd).1 (he ▸ hx)
        · exact hav x (List.mem_cons_of_mem _ hx)

/-- In the reverse map every binding sends a key to itself when all names
are short, and every processed name is bound. -/
theorem revMap_fold :
    ∀ (names : List JStr) (acc : List (JStr × JStr)),
      (∀ m ∈ names, m.length ≤ 64) →
      (∀ k v, getRecord acc k = some v → v = k) →
      (∀ k v, getRecord (names.foldl
          (fun m n => setRecord m (shortenNameIfNeeded n) n) acc) k = some v →
          v = k) ∧
      (∀ n, n ∈ names ∨ (getRecord acc n).isSome →
        (getRecord (names.foldl
          (fun m n => setRecord m (shortenNameIfNeeded n) n) acc) n).isSome)
  | [], acc, _, hacc => by
      refine ⟨by simpa using hacc, ?_⟩
      intro n hn
      rcases hn with hn | hn
      · simp at hn
      · simpa using hn
  | m :: rest, acc, hle, hacc => by
      simp only [List.foldl_cons]
      have hm : shortenNameIfNeeded m = m :=
        shortenNameIfNeeded_id m (hle m (List.mem_cons_self _ _))
      rw [hm]
      have hacc2 : ∀ k v, getRecord (setRecord acc m m) k = some v → v = k := by
        intro k v hget
        by_cases hk : k = m
        · subst hk
          rw [getRecord_set_self] at hget
          cases hget
          rfl
        · rw [getRecord_set_other _ _ _ _ hk] at hget
          exact hacc k v hget
      have hrec := revMap_fold rest (setRecord acc m m)
        (fun x hx => hle x (List.mem_cons_of_mem _ hx)) hacc2
      refine ⟨hrec.1, ?_⟩
      intro n hn
      rcases hn with hn | hn
      · rcases List.mem_cons.mp hn with rfl | hnrest
        · apply hrec.2
          right
          rw [getRecord_set_self]
          rfl
        · exact hrec.2 n (Or.inl hnrest)
      · apply hrec.2
        right
        by_cases hk : n = m
        · subst hk
          rw [getRecord_set_self]
          rfl
        · rw [getRecord_set_other _ _ _ _ hk]
          exact hn

/-- C6: `buildShortNameMap` is injective; every produced name has length at
most 64 (for any input a JS array can hold); and on a duplicate-free set of
names of length ≤ 64 the map is the identity and the reverse map of
`buildReverseMapFromOpenAI` recovers every original name. -/
theorem buildShortNameMap_props (names : List JStr) :
    (∀ k1 v1 k2 v2, getRecord (buildShortNameMap names) k1 = some v1 →
      getRecord (buildShortNameMap names) k2 = some v2 → k1 ≠ k2 → v1 ≠ v2) ∧
    (names.length ≤ 2 ^ 32 →
      ∀ k v, getRecord (buildShortNameMap names) k = some v →
        v.length ≤ 64) ∧
    (names.Nodup → (∀ n ∈ names, n.length ≤ 64) →
      ∀ n ∈ names, getRecord (buildShortNameMap names) n = some n ∧
        getRecord (buildReverseMap names) n = some n) := by
  refine ⟨?_, ?_, ?_⟩
  · exact buildGo_inj names [] [] (by intro k v h; simp [getRecord] at h)
      (by intro k1 v1 k2 v2 h; simp [getRecord] at h)
  · intro hlen
    exact buildGo_len names [] [] (by simpa using hlen)
      (by intro k v h; simp [getRecord] at h)
  · intro hnd hle n hn
    refine ⟨buildGo_id names [] [] hnd hle (by simp) n hn, ?_⟩
    have h := revMap_fold names [] hle
      (by intro k v hg; simp [getRecord] at hg)
    have hsome := h.2 n (Or.inl hn)
    obtain ⟨v, hv⟩ := Option.isSome_iff_exists.mp hsome
    rw [buildReverseMap, hv, h.1 n v hv]

/-- Witness for C6 at a concrete name set. -/
theorem buildShortNameMap_props_witness :
    getRecord (buildShortNameMap ["alpha".data, "beta".data]) "alpha".data =
      some "alpha".data ∧
    getRecord (buildReverseMap ["alpha".data, "beta".data]) "alpha".data =
      some "alpha".data ∧
    ∀ v, getRecord (buildShortNameMap ["alpha".data, "beta".data])
      "alpha".data = some v → v.length ≤ 64 := by
  have h := buildShortNameMap_props ["alpha".data, "beta".data]
  have hid := h.2.2 (by decide) (by decide) "alpha".data (by decide)
  refine ⟨hid.1, hid.2, ?_⟩
  intro v hv
  exact h.2.1 (by decide) _ v hv

/-! ### Converter lemmas -/

/-- Lookup on a cons cell of object fields. -/
theorem getKey_cons (p : String × Json) (l : List (String × Json))
    (k : String) :
    getKey (p :: l) k = if p.1 = k then some p.2 else getKey l k := by
  by_cases h : p.1 = k
  · have hb : (p.1 == k) = true := beq_iff_eq.mpr h
    simp [getKey, List.find?_cons, hb, h]
  · have hb : (p.1 == k) = false := beq_eq_false_iff_ne.mpr h
    simp [getKey, List.find?_cons, hb, h]

/-- Semantics of object assignment. -/
theorem getKey_setKey :
    ∀ (m : List (String × Json)) (j : String) (v : Json) (k : String),
      getKey (setKey m j v) k = if k = j then some v else getKey m k
  | [], j, v, k => by
      simp only [setKey]
      rw [getKey_cons]
      by_cases h : k = j
      · simp [h]
      · simp [h, Ne.symm h, getKey]
  | (k1, v1) :: rest, j, v, k => by
      simp only [setKey]
      by_cases h1 : k1 = j
      · rw [if_pos h1, getKey_cons, getKey_cons]
        by_cases h : k = j
        · simp [h]
        · rw [if_neg (by simpa using Ne.symm h), if_neg h, if_neg]
          rw [h1]
          exact Ne.symm h
      · rw [if_neg h1, getKey_cons, getKey_cons]
        by_cases h2 : k1 = k
        · have hkj : ¬ k = j := by
            intro he
            exact h1 (h2.trans he)
          rw [if_pos h2, if_pos h2, if_neg hkj]
        · rw [if_neg h2, if_neg h2, getKey_setKey rest j v k]

/-- The unconditional output head, evaluated: the `reasoning` re-assignment
merges `summary: "auto"` after `effort`. -/
theorem baseFields_eval (payload : Json) :
    baseFields payload =
      [("stream", .bool (jsTruthy (payload.getField "stream"))),
       ("model", (modelEffort
          (jsCoalesce (payload.getField "model") (.str "gpt-5"))
          (jsCoalesce (payload.getField "reasoning_effort") (.str "low"))).1),
       ("reasoning", .obj [("effort", (modelEffort
          (jsCoalesce (payload.getField "model") (.str "gpt-5"))
          (jsCoalesce (payload.getField "reasoning_effort") (.str "low"))).2),
          ("summary", .str "auto")]),
       ("parallel_tool_calls", .bool true),
       ("include", .arr [.str "reasoning.encrypted_content"])] := rfl

/-- The text section writes only the `text` key. -/
theorem textSection_frame (payload : Json) (out : List (String × Json))
    (k : String) (hk : k ≠ "text") :
    getKey (textSection payload out).1 k = getKey out k := by
  by_cases hrf : isObjTruthy (payload.getField "response_format")
  · simp only [textSection, hrf, if_true]
    rw [getKey_setKey, if_neg hk]
  · simp only [textSection, hrf, Bool.false_eq_true, if_false]
    rcases htext : payload.getField "text" with _ | tv
    · rfl
    · cases tv with
      | obj fs =>
          simp only [Option.getD_some]
          rcases hv : (Json.obj fs).getField "verbosity" with _ | v
          · simp only [hv]
          · simp only [hv]
            rw [getKey_setKey, if_neg hk]
      | null => rfl
      | bool b => rfl
      | num n => rfl
      | str sv => rfl
      | arr l => rfl

/-- The `store` flag is exactly the `response_format`-is-an-object test. -/
theorem textSection_store (payload : Json) (out : List (String × Json)) :
    (textSection payload out).2 =
      isObjTruthy (payload.getField "response_format") := by
  by_cases hrf : isObjTruthy (payload.getField "response_format")
  · simp [textSection, hrf]
  · have hrf2 : isObjTruthy (payload.getField "response_format") = false := by
      simpa using hrf
    simp only [textSection, hrf2, Bool.false_eq_true, if_false]
    rcases htext : payload.getField "text" with _ | tv
    · rfl
    · cases tv with
      | obj fs =>
          simp only [Option.getD_some]
          rcases hv : (Json.obj fs).getField "verbosity" with _ | v
          · simp only [hv]
          · simp only [hv]
      | null => rfl
      | bool b => rfl
      | num n => rfl
      | str sv => rfl
      | arr l => rfl

/-- The tools section writes only the `tools` key. -/
theorem toolsSection_frame (payload : Json) (out : List (String × Json))
    (k : String) (hk : k ≠ "tools") :
    getKey (toolsSection payload out).1 k = getKey out k := by
  simp only [toolsSection]
  split
  · rw [getKey_setKey, if_neg hk]
  · rfl

/-- Field lookup on an object value. -/
theorem getField_obj (m : List (String × Json)) (k : String) :
    (Json.obj m).getField k = getKey m k := rfl

/-- The converter, unfolded to its output-building chain. -/
theorem convert_unfold (payload : Json) :
    convertChatCompletionsToResponses payload =
      Json.obj (setKey (setKey (setKey (midFields payload) "instructions"
        (extractInstructions (msgsOf payload))) "input"
        (.arr (inputItems payload))) "store"
        (.bool (storeFlagOf payload))) := rfl

/-- Keys of the unconditional head pass through the tail sections
unchanged. -/
theorem convert_getField_base (payload : Json) (k : String)
    (h1 : k ≠ "instructions") (h2 : k ≠ "input") (h3 : k ≠ "store")
    (h4 : k ≠ "text") (h5 : k ≠ "tools") :
    (convertChatCompletionsToResponses payload).getField k =
      getKey (baseFields payload) k := by
  rw [convert_unfold, getField_obj, getKey_setKey, if_neg h3, getKey_setKey,
    if_neg h2, getKey_setKey, if_neg h1]
  show getKey (toolsSection payload (textSection payload
    (baseFields payload)).1).1 k = getKey (baseFields payload) k
  rw [toolsSection_frame _ _ _ h5, textSection_frame _ _ _ h4]

/-- The head fields, computed. -/
theorem baseFields_lookup (payload : Json) :
    getKey (baseFields payload) "model" =
      some (modelEffort
        (jsCoalesce (payload.getField "model") (.str "gpt-5"))
        (jsCoalesce (payload.getField "reasoning_effort") (.str "low"))).1 ∧
    getKey (baseFields payload) "reasoning" =
      some (.obj [("effort", (modelEffort
        (jsCoalesce (payload.getField "model") (.str "gpt-5"))
        (jsCoalesce (payload.getField "reasoning_effort") (.str "low"))).2),
        ("summary", .str "auto")]) ∧
    getKey (baseFields payload) "parallel_tool_calls" = some (.bool true) ∧
    getKey (baseFields payload) "include" =
      some (.arr [.str "reasoning.encrypted_content"]) := by
  refine ⟨?_, ?_, ?_, ?_⟩ <;> rw [baseFields_eval] <;> simp [getKey_cons]

/-- C1: the converter rewrites `gpt-5-{minimal,low,medium,high}` to model
`gpt-5` with the corresponding `reasoning.effort`, always sets
`reasoning.summary = "auto"`, `parallel_tool_calls = true` and
`include = ["reasoning.encrypted_content"]`, takes `instructions` from the
first system message with textual content (default "You are a helpful
assistant."), builds the ordered `input` array whose items are exactly
`message` / `function_call` / `function_call_output` objects contributed by
the messages in order, and sets `store = true` exactly when the payload
carries a `response_format` object (and `false` when `response_format` is
absent). -/
theorem convertChatCompletionsToResponses_spec (payload : Json) :
    (∀ mv : String × String,
      mv ∈ [("gpt-5-minimal", "minimal"), ("gpt-5-low", "low"),
            ("gpt-5-medium", "medium"), ("gpt-5-high", "high")] →
      payload.getField "model" = some (.str mv.1) →
      (convertChatCompletionsToResponses payload).getField "model" =
          some (.str "gpt-5") ∧
      (convertChatCompletionsToResponses payload).getField "reasoning" =
          some (.obj [("effort", .str mv.2), ("summary", .str "auto")])) ∧
    (∃ e, (convertChatCompletionsToResponses payload).getField "reasoning" =
        some (.obj [("effort", e), ("summary", .str "auto")])) ∧
    (convertChatCompletionsToResponses payload).getField "parallel_tool_calls"
        = some (.bool true) ∧
    (convertChatCompletionsToResponses payload).getField "include" =
        some (.arr [.str "reasoning.encrypted_content"]) ∧
    ((convertChatCompletionsToResponses payload).getField "instructions" =
        some (extractInstructions (msgsOf payload)) ∧
      extractInstructions [] = .str "You are a helpful assistant." ∧
      (∀ m rest c, isRole m "system" = true →
        m.getField "content" = some (.str c) → c ≠ "" →
        extractInstructions (m :: rest) = .str c) ∧
      (∀ m rest, isRole m "system" = false →
        extractInstructions (m :: rest) = extractInstructions rest)) ∧
    ((convertChatCompletionsToResponses payload).getField "input" =
        some (.arr (inputItems payload)) ∧
      inputItems payload =
        (msgsOf payload).flatMap (convMessage (toolMapOf payload)) ∧
      (∀ (tm : List (JStr × JStr)) (m item : Json),
        item ∈ convMessage tm m →
        typeIs item "message" = true ∨ typeIs item "function_call" = true ∨
        typeIs item "function_call_output" = true)) ∧
    ((payload.getField "response_format" = none →
      (convertChatCompletionsToResponses payload).getField "store" =
          some (.bool false)) ∧
     (∀ fs, payload.getField "response_format" = some (.obj fs) →
      (convertChatCompletionsToResponses payload).getField "store" =
          some (.bool true))) := by
  have hbase := baseFields_lookup payload
  have hmodel : (convertChatCompletionsToResponses payload).getField "model" =
      getKey (baseFields payload) "model" :=
    convert_getField_base payload "model" (by decide) (by decide) (by decide)
      (by decide) (by decide)
  have hreas :
      (convertChatCompletionsToResponses payload).getField "reasoning" =
      getKey (baseFields payload) "reasoning" :=
    convert_getField_base payload "reasoning" (by decide) (by decide)
      (by decide) (by decide) (by decide)
  have hstore : (convertChatCompletionsToResponses payload).getField "store" =
      some (.bool (storeFlagOf payload)) := by
    rw [convert_unfold, getField_obj, getKey_setKey, if_pos rfl]
  have hsf : storeFlagOf payload =
      isObjTruthy (payload.getField "response_format") :=
    textSection_store payload (baseFields payload)
  refine ⟨?_, ?_, ?_, ?_, ⟨?_, rfl, ?_, ?_⟩, ⟨?_, rfl, ?_⟩, ?_, ?_⟩
  · intro mv hmv hm
    have hco : jsCoalesce (payload.getField "model") (.str "gpt-5") =
        .str mv.1 := by
      rw [hm]
      rfl
    fin_cases hmv <;>
      refine ⟨?_, ?_⟩ <;>
      simp only [hmodel, hreas, hbase.1, hbase.2.1, hco] <;>
      simp [modelEffort, effortOfModel]
  · exact ⟨_, hreas.trans hbase.2.1⟩
  · exact (convert_getField_base payload "parallel_tool_calls" (by decide)
      (by decide) (by decide) (by decide) (by decide)).trans hbase.2.2.1
  · exact (convert_getField_base payload "include" (by decide) (by decide)
      (by decide) (by decide) (by decide)).trans hbase.2.2.2
  · rw [convert_unfold, getField_obj, getKey_setKey,
      if_neg (by decide : ¬ ("instructions" : String) = "store"), getKey_setKey,
      if_neg (by decide : ¬ ("instructions" : String) = "input"), getKey_setKey,
      if_pos rfl]
  · intro m rest c hrole hcontent hc
    simp only [extractInstructions, hrole, if_true, hcontent]
    rw [if_pos hc]
  · intro m rest hrole
    simp only [extractInstructions, hrole, Bool.false_eq_true, if_false]
  · rw [convert_unfold, getField_obj, getKey_setKey,
      if_neg (by decide : ¬ ("input" : String) = "store"), getKey_setKey,
      if_pos rfl]
  · intro tm m item hitem
    simp only [convMessage] at hitem
    by_cases hrole : isRole m "tool"
    · simp only [hrole, if_true, List.mem_singleton] at hitem
      subst hitem
      right
      right
      rfl
    · simp only [hrole, Bool.false_eq_true, if_false, List.mem_cons] at hitem
      rcases hitem with rfl | hitem
      · left
        rfl
      · right
        left
        by_cases hassist : isRole m "assistant"
        · simp only [hassist, if_true] at hitem
          rcases htc : m.getField "tool_calls" with _ | tcv
          · rw [htc] at hitem
            simp at hitem
          · rw [htc] at hitem
            cases tcv with
            | arr l =>
                obtain ⟨tc, _, htcc⟩ := List.mem_filterMap.mp hitem
                simp only [convToolCall] at htcc
                by_cases hty : typeIs tc "function"
                · rw [if_pos hty] at htcc
                  cases htcc
                  rfl
                · rw [if_neg hty] at htcc
                  cases htcc
            | null => simp at hitem
            | bool b => simp at hitem
            | num n => simp at hitem
            | str sv => simp at hitem
            | obj fs => simp at hitem
        · simp only [hassist, Bool.false_eq_true, if_false] at hitem
          simp at hitem
  · intro hrf
    rw [hstore, hsf, hrf]
    rfl
  · intro fs hrf
    rw [hstore, hsf, hrf]
    rfl

/-- Witness for C1 at the payload of scenario S4. -/
theorem convertChatCompletionsToResponses_spec_witness :
    (convertChatCompletionsToResponses (Json.obj [("model", .str "gpt-5-high"),
      ("messages", .arr [
        .obj [("role", .str "system"), ("content", .str "SYS")],
        .obj [("role", .str "user"), ("content", .str "hi")]])])).getField
      "model" = some (.str "gpt-5") ∧
    (convertChatCompletionsToResponses (Json.obj [("model", .str "gpt-5-high"),
      ("messages", .arr [
        .obj [("role", .str "system"), ("content", .str "SYS")],
        .obj [("role", .str "user"), ("content", .str "hi")]])])).getField
      "reasoning" =
        some (.obj [("effort", .str "high"), ("summary", .str "auto")]) ∧
    (convertChatCompletionsToResponses (Json.obj [("model", .str "gpt-5-high"),
      ("messages", .arr [
        .obj [("role", .str "system"), ("content", .str "SYS")],
        .obj [("role", .str "user"), ("content", .str "hi")]])])).getField
      "instructions" = some (.str "SYS") ∧
    (convertChatCompletionsToResponses (Json.obj [("model", .str "gpt-5-high"),
      ("messages", .arr [
        .obj [("role", .str "system"), ("content", .str "SYS")],
        .obj [("role", .str "user"), ("content", .str "hi")]])])).getField
      "store" = some (.bool false) := by
  have h := convertChatCompletionsToResponses_spec
    (Json.obj [("model", .str "gpt-5-high"),
      ("messages", .arr [
        .obj [("role", .str "system"), ("content", .str "SYS")],
        .obj [("role", .str "user"), ("content", .str "hi")]])])
  obtain ⟨hm, hr⟩ := h.1 ("gpt-5-high", "high") (by decide) rfl
  refine ⟨hm, hr, ?_, h.2.2.2.2.2.2.1 rfl⟩
  rw [h.2.2.2.2.1.1]
  rfl

/-- C7: the streaming translator emits a chat chunk exactly for the five
enumerated event types — reasoning summary delta/done, output text delta,
`output_item.done` carrying a `function_call` item, and
`response.completed` — with the specified delta contents; any other event
produces no chunk (`response.created` only initialises the stream state);
and the final chunk's `finish_reason` / `native_finish_reason` is
`"tool_calls"` when a `function_call` chunk was emitted earlier
(`fnIdx ≥ 0`) and `"stop"` otherwise. -/
theorem mapResponsesEventToChatChunk_spec (evt : Json) (st : StreamState)
    (revMap : List (JStr × JStr)) (now : Int) :
    (evtType evt = some "response.reasoning_summary_text.delta" →
      mapResponsesEventToChatChunk evt st revMap now =
        (some (mkChunk st now
          [("reasoning_content", jsOr (evt.getField "delta") (.str ""))]
          none), st)) ∧
    (evtType evt = some "response.reasoning_summary_text.done" →
      mapResponsesEventToChatChunk evt st revMap now =
        (some (mkChunk st now [("reasoning_content", .str "\n\n")] none),
          st)) ∧
    (evtType evt = some "response.output_text.delta" →
      mapResponsesEventToChatChunk evt st revMap now =
        (some (mkChunk st now
          [("content", jsOr (evt.getField "delta") (.str ""))] none), st)) ∧
    (∀ item, evtType evt = some "response.output_item.done" →
      evt.getField "item" = some item → typeIs item "function_call" = true →
      mapResponsesEventToChatChunk evt st revMap now =
        (some (mkChunk st now [("tool_calls", .arr [Json.obj [
            ("index", .num (st.fnIdx.getD (-1) + 1)),
            ("id", jsOr (item.getField "call_id") (.str "")),
            ("type", .str "function"),
            ("function", .obj [
              ("name", .str (deshorten revMap
                (match jsOr (item.getField "name") (.str "") with
                 | .str s => s
                 | _ => ""))),
              ("arguments", jsOr (item.getField "arguments") (.str ""))])]])]
          none),
          { st with fnIdx := some (st.fnIdx.getD (-1) + 1) }) ∧
      ((st.fnIdx = none ∨ fnEmitted st = true) →
        fnEmitted { st with fnIdx := some (st.fnIdx.getD (-1) + 1) } =
          true)) ∧
    (∀ item, evtType evt = some "response.output_item.done" →
      evt.getField "item" = some item → typeIs item "function_call" = false →
      mapResponsesEventToChatChunk evt st revMap now = (none, st)) ∧
    (evtType evt = some "response.completed" →
      mapResponsesEventToChatChunk evt st revMap now =
        (some (mkChunk st now []
          (some (if fnEmitted st then "tool_calls" else "stop"))), st)) ∧
    (fnEmitted st = true ↔ ∃ v, st.fnIdx = some v ∧ 0 ≤ v) ∧
    (st.inited = false → evtType evt = some "response.created" →
      (mapResponsesEventToChatChunk evt st revMap now).1 = none) ∧
    (∀ t, evtType evt = some t → t ∉ emittingEventTypes →
      (mapResponsesEventToChatChunk evt st revMap now).1 = none) ∧
    (evtType evt = none →
      (mapResponsesEventToChatChunk evt st revMap now).1 = none) := by
  refine ⟨?_, ?_, ?_, ?_, ?_, ?_, ?_, ?_, ?_, ?_⟩
  · intro ht
    simp [mapResponsesEventToChatChunk, ht]
  · intro ht
    simp [mapResponsesEventToChatChunk, ht]
  · intro ht
    simp [mapResponsesEventToChatChunk, ht]
  · intro item ht hitem hty
    refine ⟨?_, ?_⟩
    · simp [mapResponsesEventToChatChunk, ht, hitem, hty]
    · rintro (hfn | hfn)
      · simp [fnEmitted, hfn]
      · rcases hv : st.fnIdx with _ | v
        · simp [fnEmitted, hv]
        · rw [fnEmitted, hv] at hfn
          simp only [fnEmitted, hv, Option.getD_some, decide_eq_true_eq]
          simp only [decide_eq_true_eq] at hfn
          omega
  · intro item ht hitem hty
    simp [mapResponsesEventToChatChunk, ht, hitem, hty]
  · intro ht
    simp [mapResponsesEventToChatChunk, ht]
  · constructor
    · intro h
      cases hfn : st.fnIdx with
      | none => rw [fnEmitted, hfn] at h; exact absurd h (by simp)
      | some v =>
          rw [fnEmitted, hfn] at h
          exact ⟨v, rfl, by simpa using h⟩
    · rintro ⟨v, hv, hge⟩
      rw [fnEmitted, hv]
      simpa using hge
  · intro hinit ht
    simp [mapResponsesEventToChatChunk, ht, hinit]
  · intro t ht hmem
    have h1 : t ≠ "response.reasoning_summary_text.delta" := by
      intro he
      exact hmem (by rw [he]; decide)
    have h2 : t ≠ "response.reasoning_summary_text.done" := by
      intro he
      exact hmem (by rw [he]; decide)
    have h3 : t ≠ "response.output_text.delta" := by
      intro he
      exact hmem (by rw [he]; decide)
    have h4 : t ≠ "response.output_item.done" := by
      intro he
      exact hmem (by rw [he]; decide)
    have h5 : t ≠ "response.completed" := by
      intro he
      exact hmem (by rw [he]; decide)
    simp [mapResponsesEventToChatChunk, ht, h1, h2, h3, h4, h5]
    split <;> rfl
  · intro ht
    simp [mapResponsesEventToChatChunk, ht]

/-- Witness for C7: a concrete text-delta event emits the delta, an
unrelated event emits nothing, and a completed event after a function_call
closes with `tool_calls`. -/
theorem mapResponsesEventToChatChunk_spec_witness :
    mapResponsesEventToChatChunk
        (.obj [("type", .str "response.output_text.delta"),
               ("delta", .str "ok")]) { inited := true } [] 7 =
      (some (mkChunk { inited := true } 7 [("content", .str "ok")] none),
        { inited := true }) ∧
    (mapResponsesEventToChatChunk (.obj [("type", .str "response.ping")])
        { inited := true } [] 7).1 = none ∧
    mapResponsesEventToChatChunk (.obj [("type", .str "response.completed")])
        { inited := true, fnIdx := some 0 } [] 7 =
      (some (mkChunk { inited := true, fnIdx := some 0 } 7 []
        (some "tool_calls")), { inited := true, fnIdx := some 0 }) := by
  have h1 := (mapResponsesEventToChatChunk_spec
    (.obj [("type", .str "response.output_text.delta"),
           ("delta", .str "ok")]) { inited := true } [] 7).2.2.1 rfl
  have h2 := (mapResponsesEventToChatChunk_spec
    (.obj [("type", .str "response.ping")])
    { inited := true } [] 7).2.2.2.2.2.2.2.2.1 "response.ping" rfl (by decide)
  have h3 := (mapResponsesEventToChatChunk_spec
    (.obj [("type", .str "response.completed")])
    { inited := true, fnIdx := some 0 } [] 7).2.2.2.2.2.1 rfl
  refine ⟨?_, h2, ?_⟩
  · rw [h1]
    rfl
  · rw [h3]
    rfl
